import Mathlib

/-!
Verification of the satellite-imagery pipeline of cool-city-planner.

The embedding follows the two source files with algorithmic content:

* `backend/app/services/analysis_service.py` — crop to a multiple of 512,
  row-major tiling and untiling, and `analyze_image` (batched segmentation,
  arg-max class map, mask extraction and reconstruction);
* `backend/app/services/live_satellite_service.py` — spherical Mercator
  projection, pixel/tile coordinate computation, and stitching of fetched
  tiles onto a zero-initialised canvas.

Rasters (numpy arrays) are embedded as total functions from integer
coordinates together with their shape; sequential numpy slice assignments
are embedded as a left fold of rectangle writes (`writeFold`).  Machine
floats are idealised as real numbers; Python `int()` truncation toward
zero is `pyInt`.
-/

/-- A raster of shape `(h, w)` whose pixel values live in `α`.  The pixel
function is total; entries at coordinates outside the shape are junk and
are never constrained or read by the theorems below.  The channel axis of
a `(h, w, 3)` numpy array is folded into the value type `α`. -/
structure Raster (α : Type) where
  h : ℕ
  w : ℕ
  px : ℕ → ℕ → α

/-- Sequential in-place rectangle writes: `writeFold P f L base` performs,
for each list element `e` in order, the write «at every index `i` with
`P e i`, store `f e i`», starting from the array `base`.  This is the shape
of a Python loop of numpy slice assignments; later writes win. -/
def writeFold {β ι α : Type} (P : β → ι → Bool) (f : β → ι → α)
    (L : List β) (base : ι → α) : ι → α :=
  L.foldl (fun acc e => fun i => if P e i then f e i else acc i) base

theorem writeFold_nil {β ι α : Type} (P : β → ι → Bool) (f : β → ι → α)
    (base : ι → α) : writeFold P f [] base = base := rfl

theorem writeFold_cons {β ι α : Type} (P : β → ι → Bool) (f : β → ι → α)
    (a : β) (L : List β) (base : ι → α) :
    writeFold P f (a :: L) base =
      writeFold P f L (fun i => if P a i then f a i else base i) := rfl

/-- An index touched by no write keeps its base value. -/
theorem writeFold_eq_base {β ι α : Type} {P : β → ι → Bool} {f : β → ι → α}
    {L : List β} {i : ι} (h : ∀ e ∈ L, P e i = false) (base : ι → α) :
    writeFold P f L base i = base i := by
  induction L generalizing base with
  | nil => rfl
  | cons a L ih =>
      rw [writeFold_cons, ih (fun e he => h e (List.mem_cons_of_mem a he))]
      simp [h a (List.mem_cons_self a L)]

/-- If exactly one list element writes to index `i`, the final value at `i`
is that element's value, wherever it sits in the list. -/
theorem writeFold_eq_of_unique {β ι α : Type} {P : β → ι → Bool}
    {f : β → ι → α} {L : List β} {e : β} {i : ι}
    (he : e ∈ L) (hP : P e i = true)
    (huniq : ∀ e₂ ∈ L, P e₂ i = true → e₂ = e) (base : ι → α) :
    writeFold P f L base i = f e i := by
  induction L generalizing base with
  | nil => cases he
  | cons a L ih =>
      rw [writeFold_cons]
      by_cases hex : ∃ e₂ ∈ L, P e₂ i = true
      · obtain ⟨e₂, he₂, hPe₂⟩ := hex
        have heq : e₂ = e := huniq e₂ (List.mem_cons_of_mem a he₂) hPe₂
        subst heq
        exact ih he₂ (fun e₃ he₃ => huniq e₃ (List.mem_cons_of_mem a he₃)) _
      · push_neg at hex
        have hnone : ∀ e₂ ∈ L, P e₂ i = false := by
          intro e₂ he₂
          exact Bool.eq_false_iff.mpr (fun hcon => hex e₂ he₂ hcon)
        rw [writeFold_eq_base hnone]
        have hea : e = a := by
          rcases List.mem_cons.mp he with h | h
          · exact h
          · exact absurd hP (by simp [hnone e h])
        subst hea
        simp [hP]

/-- Every final value is either the base value or the value of some write. -/
theorem writeFold_cases {β ι α : Type} (P : β → ι → Bool) (f : β → ι → α)
    (L : List β) (base : ι → α) (i : ι) :
    writeFold P f L base i = base i ∨ ∃ e ∈ L, writeFold P f L base i = f e i := by
  induction L generalizing base with
  | nil => exact Or.inl rfl
  | cons a L ih =>
      rw [writeFold_cons]
      rcases ih (fun i => if P a i then f a i else base i) with h | ⟨e, he, hval⟩
      · rw [h]
        by_cases hPa : P a i = true
        · exact Or.inr ⟨a, List.mem_cons_self a L, by simp [hPa]⟩
        · simp only [Bool.not_eq_true] at hPa
          simp [hPa]
      · exact Or.inr ⟨e, List.mem_cons_of_mem a he, hval⟩

/-- Row-major grid of index pairs `(y, x)`, `y < m`, `x < n` — the iteration
order of the nested `for y … for x …` loops in the source. -/
def grid2 (m n : ℕ) : List (ℕ × ℕ) :=
  (List.range m).flatMap fun y => (List.range n).map fun x => (y, x)

theorem mem_grid2 {m n : ℕ} {p : ℕ × ℕ} :
    p ∈ grid2 m n ↔ p.1 < m ∧ p.2 < n := by
  cases p with
  | mk y x =>
      simp only [grid2, List.mem_flatMap, List.mem_map, List.mem_range]
      constructor
      · rintro ⟨a, ha, b, hb, h⟩
        cases h
        exact ⟨ha, hb⟩
      · rintro ⟨hy, hx⟩
        exact ⟨y, hy, x, hx, rfl⟩

theorem grid2_succ (m n : ℕ) :
    grid2 (m + 1) n = grid2 m n ++ (List.range n).map fun x => (m, x) := by
  simp [grid2, List.range_succ]

theorem grid2_length (m n : ℕ) : (grid2 m n).length = m * n := by
  induction m with
  | zero => simp [grid2]
  | succ m ih =>
      rw [grid2_succ, List.length_append, ih, List.length_map, List.length_range]
      ring

theorem grid2_getElem {m n k : ℕ} (hk : k < m * n)
    (hk2 : k < (grid2 m n).length) :
    (grid2 m n).get ⟨k, hk2⟩ = (k / n, k % n) := by
  induction m with
  | zero => omega
  | succ m ih =>
      rw [List.get_eq_getElem]
      show (grid2 (m + 1) n)[k] = (k / n, k % n)
      rw [List.getElem_of_eq (grid2_succ m n)]
      by_cases hlt : k < m * n
      · have hkl : k < (grid2 m n).length := by rw [grid2_length]; exact hlt
        rw [List.getElem_append_left hkl]
        have := ih hlt hkl
        rw [List.get_eq_getElem] at this
        exact this
      · have hge : m * n ≤ k := Nat.le_of_not_lt hlt
        have hk' : k < m * n + n := by
          have hmul : (m + 1) * n = m * n + n := Nat.succ_mul m n
          rw [hmul] at hk
          exact hk
        have hklt : k - m * n < n := by omega
        rw [List.getElem_append_right (by rw [grid2_length]; exact hge)]
        rw [List.getElem_map, List.getElem_range]
        have hdiv : k / n = m := Nat.div_eq_of_lt_le hge hk
        have hmod : k % n = k - m * n := by
          conv_lhs => rw [← Nat.sub_add_cancel hge]
          rw [Nat.add_mul_mod_self_right]
          exact Nat.mod_eq_of_lt hklt
        rw [hdiv, hmod, grid2_length]

/-- Python `range(0, stop, step)` for positive step (start 0). -/
def pyRangeStep (stop step : ℕ) : List ℕ :=
  List.range' 0 ((stop + step - 1) / step) step

theorem range'_eq_map (a n s : ℕ) :
    List.range' a n s = (List.range n).map fun i => a + i * s := by
  induction n generalizing a with
  | zero => rfl
  | succ n ih =>
      rw [List.range'_succ, List.range_succ_eq_map, List.map_cons]
      simp only [Nat.zero_mul, Nat.add_zero, List.map_map]
      rw [ih]
      congr 1
      apply List.map_congr_left
      intro i _
      simp [Function.comp]
      ring

/-- On an exact multiple of 512, `range(0, 512*t, 512)` visits the 512-aligned
offsets `0, 512, …, 512*(t-1)`. -/
theorem pyRangeStep_512 (t : ℕ) :
    pyRangeStep (512 * t) 512 = (List.range t).map fun i => i * 512 := by
  have hcount : (512 * t + 512 - 1) / 512 = t := by omega
  rw [pyRangeStep, hcount, range'_eq_map]
  simp

/-! ### analysis_service.py -/

/-- Embedding of `crop_to_multiple_of_512` (analysis_service.py lines 7-13):
`image[:height - height % 512, :width - width % 512, :]`.  Slicing a prefix
only changes the shape; the pixel function is unchanged. -/
def crop_to_multiple_of_512 {α : Type} (image : Raster α) : Raster α :=
  { h := image.h - image.h % 512
    w := image.w - image.w % 512
    px := image.px }

/-- Embedding of `tile_image` (analysis_service.py lines 16-26): for
`y in range(0, height, tile_size)`, `x in range(0, width, tile_size)`,
append the slice `image[y:y+tile_size, x:x+tile_size]`.  A slice that
reaches past the border is clipped by numpy, hence the `min` shapes. -/
def tile_image {α : Type} (image : Raster α) (tile_size : ℕ := 512) :
    List (Raster α) :=
  (pyRangeStep image.h tile_size).flatMap fun y =>
    (pyRangeStep image.w tile_size).map fun x =>
      ({ h := min tile_size (image.h - y)
         w := min tile_size (image.w - x)
         px := fun i j => image.px (y + i) (x + j) } : Raster α)

/-- Embedding of `untile_image` (analysis_service.py lines 28-45): a zero
canvas of shape `(original_height, original_width)` over which the loop
`for y in range(tiles_y): for x in range(tiles_x)` writes
`reconstructed[y*ts:(y+1)*ts, x*ts:(x+1)*ts] = tiles[tile_idx]`, consuming
the tile list in row-major order (`tile_idx += 1`). -/
def untile_image {α : Type} [Zero α] (tiles : List (Raster α))
    (original_height original_width : ℕ) (tile_size : ℕ := 512) : Raster α :=
  let tiles_y := original_height / tile_size
  let tiles_x := original_width / tile_size
  { h := original_height
    w := original_width
    px := fun r c =>
      writeFold
        (fun e i => decide (e.1.1 * tile_size ≤ i.1 ∧ i.1 < e.1.1 * tile_size + tile_size ∧
          e.1.2 * tile_size ≤ i.2 ∧ i.2 < e.1.2 * tile_size + tile_size))
        (fun e i => e.2.px (i.1 - e.1.1 * tile_size) (i.2 - e.1.2 * tile_size))
        ((grid2 tiles_y tiles_x).zip tiles)
        (fun _ => 0) (r, c) }

/-- Embedding of `np.argmax` on the class axis: index of the first maximal
entry of the per-pixel class list (`np.argmax` keeps the first on ties). -/
def argmaxAux (best : ℕ) (bestV : ℚ) (i : ℕ) : List ℚ → ℕ
  | [] => best
  | v :: rest => if bestV < v then argmaxAux i v (i + 1) rest
                 else argmaxAux best bestV (i + 1) rest

/-- First index of the maximum of a list of class scores; `0` on the empty
list (numpy raises there, and the model contract rules it out). -/
def argmaxIdx : List ℚ → ℕ
  | [] => 0
  | v :: rest => argmaxAux 0 v 1 rest

/-- Embedding of `analyze_image` (analysis_service.py lines 47-75).  The
segmentation model is the external `predict` capability; a mosaic pixel is
its BGR channel triple `Fin 3 → ℚ`, a prediction pixel is its class-score
list.  `np.expand_dims`/`np.squeeze` only move the trivial channel axis and
are identities in this representation. -/
def analyze_image (predict : List (Raster (Fin 3 → ℚ)) → List (Raster (List ℚ)))
    (image₀ : Raster (Fin 3 → ℚ)) :
    Raster (Fin 3 → ℚ) × Raster ℕ × Raster ℕ :=
  let image := crop_to_multiple_of_512 image₀
  let original_height := image.h
  let original_width := image.w
  let tiles := tile_image image 512
  let normalized_tiles := tiles.map fun t =>
    ({ h := t.h, w := t.w, px := fun r c ch => t.px r c ch / 255 } : Raster (Fin 3 → ℚ))
  let predictions := predict normalized_tiles
  let prediction_indices := predictions.map fun t =>
    ({ h := t.h, w := t.w, px := fun r c => argmaxIdx (t.px r c) } : Raster ℕ)
  let building_tiles := prediction_indices.map fun t =>
    ({ h := t.h, w := t.w, px := fun r c => if t.px r c = 0 then 1 else 0 } : Raster ℕ)
  let vegetation_tiles := prediction_indices.map fun t =>
    ({ h := t.h, w := t.w, px := fun r c => if t.px r c = 3 then 1 else 0 } : Raster ℕ)
  let building_mask := untile_image building_tiles original_height original_width 512
  let vegetation_mask := untile_image vegetation_tiles original_height original_width 512
  (image, vegetation_mask, building_mask)

/-- Element `j` of the zipped write list of `untile_image`: grid position in
row-major order paired with the `j`-th tile. -/
theorem zip_grid2_get {α : Type} (tiles : List (Raster α)) {ty tx j : ℕ}
    (hj : j < ((grid2 ty tx).zip tiles).length) :
    ∃ (h1 : j < ty * tx) (h2 : j < tiles.length),
      ((grid2 ty tx).zip tiles).get ⟨j, hj⟩ = ((j / tx, j % tx), tiles.get ⟨j, h2⟩) := by
  have hlen : ((grid2 ty tx).zip tiles).length = min (ty * tx) tiles.length := by
    rw [List.length_zip, grid2_length]
  have h1 : j < ty * tx := by omega
  have h2 : j < tiles.length := by omega
  refine ⟨h1, h2, ?_⟩
  have hg2 : j < (grid2 ty tx).length := by rw [grid2_length]; exact h1
  rw [List.get_eq_getElem, List.get_eq_getElem]
  rw [List.getElem_zip]
  have := grid2_getElem h1 hg2
  rw [List.get_eq_getElem] at this
  rw [this]

/-- The reconstruction formula of `untile_image` on a 512-aligned canvas:
pixel `(r, c)` comes from tile `(r/512)*(w/512) + c/512` at in-tile offset
`(r % 512, c % 512)`, or stays zero when that index is past the tile list. -/
theorem untile_px_eq {α : Type} [Zero α] (tiles : List (Raster α)) {oh ow : ℕ}
    (hoh : oh % 512 = 0) (how : ow % 512 = 0) {r c : ℕ} (hr : r < oh) (hc : c < ow) :
    (untile_image tiles oh ow 512).px r c =
      if hidx : (r / 512) * (ow / 512) + c / 512 < tiles.length
      then (tiles.get ⟨(r / 512) * (ow / 512) + c / 512, hidx⟩).px (r % 512) (c % 512)
      else 0 := by
  have hqy : r / 512 < oh / 512 := by omega
  have hqx : c / 512 < ow / 512 := by omega
  have hkgrid : (r / 512) * (ow / 512) + c / 512 < (oh / 512) * (ow / 512) := by
    calc (r / 512) * (ow / 512) + c / 512 < (r / 512) * (ow / 512) + (ow / 512) := by omega
    _ = (r / 512 + 1) * (ow / 512) := by ring
    _ ≤ (oh / 512) * (ow / 512) := Nat.mul_le_mul_right _ hqy
  have htxpos : 0 < ow / 512 := by omega
  have hdivk : ((r / 512) * (ow / 512) + c / 512) / (ow / 512) = r / 512 := by
    rw [Nat.mul_comm (r / 512) (ow / 512), Nat.mul_add_div htxpos,
      Nat.div_eq_of_lt hqx]
    omega
  have hmodk : ((r / 512) * (ow / 512) + c / 512) % (ow / 512) = c / 512 := by
    rw [Nat.mul_comm (r / 512) (ow / 512), Nat.mul_add_mod]
    exact Nat.mod_eq_of_lt hqx
  show writeFold _ _ ((grid2 (oh / 512) (ow / 512)).zip tiles) _ (r, c) = _
  by_cases hidx : (r / 512) * (ow / 512) + c / 512 < tiles.length
  · rw [dif_pos hidx]
    have hkL : (r / 512) * (ow / 512) + c / 512 <
        ((grid2 (oh / 512) (ow / 512)).zip tiles).length := by
      rw [List.length_zip, grid2_length]
      omega
    obtain ⟨h1, h2, hget⟩ := zip_grid2_get tiles hkL
    rw [hdivk, hmodk] at hget
    have hmem : ((r / 512, c / 512), tiles.get ⟨(r / 512) * (ow / 512) + c / 512, h2⟩) ∈
        (grid2 (oh / 512) (ow / 512)).zip tiles := by
      rw [← hget]
      exact List.get_mem _ _ _
    rw [writeFold_eq_of_unique hmem (by simp; omega) ?uniq]
    · show (tiles.get ⟨r / 512 * (ow / 512) + c / 512, h2⟩).px
          (r - r / 512 * 512) (c - c / 512 * 512) =
        (tiles.get ⟨r / 512 * (ow / 512) + c / 512, hidx⟩).px (r % 512) (c % 512)
      have harg1 : r - r / 512 * 512 = r % 512 := by omega
      have harg2 : c - c / 512 * 512 = c % 512 := by omega
      rw [harg1, harg2]
    case uniq =>
      intro e₂ he₂ hPe₂
      rcases List.mem_iff_getElem.mp he₂ with ⟨j, hj, hLj⟩
      obtain ⟨h1j, h2j, hgetj⟩ := zip_grid2_get tiles hj
      rw [List.get_eq_getElem] at hgetj
      rw [hgetj] at hLj
      rw [← hLj] at hPe₂ ⊢
      simp only [decide_eq_true_eq] at hPe₂
      have hjdiv : j / (ow / 512) = r / 512 := by omega
      have hjmod : j % (ow / 512) = c / 512 := by omega
      have hjk : j = (r / 512) * (ow / 512) + c / 512 := by
        have := Nat.div_add_mod j (ow / 512)
        rw [hjdiv, hjmod] at this
        rw [← this]
        ring
      subst hjk
      rw [hdivk, hmodk]
  · rw [dif_neg hidx]
    refine writeFold_eq_base ?_ _
    intro e₂ he₂
    rcases List.mem_iff_getElem.mp he₂ with ⟨j, hj, hLj⟩
    obtain ⟨h1j, h2j, hgetj⟩ := zip_grid2_get tiles hj
    rw [List.get_eq_getElem] at hgetj
    rw [hgetj] at hLj
    rw [← hLj]
    apply decide_eq_false
    intro hcov
    dsimp only at hcov
    have hjdiv : j / (ow / 512) = r / 512 := by omega
    have hjmod : j % (ow / 512) = c / 512 := by omega
    have hjk : j = (r / 512) * (ow / 512) + c / 512 := by
      have := Nat.div_add_mod j (ow / 512)
      rw [hjdiv, hjmod] at this
      rw [← this]
      ring
    omega

/-- Outside the canvas no tile window reaches, so the value is the zero fill. -/
theorem untile_px_outside {α : Type} [Zero α] (tiles : List (Raster α))
    (oh ow : ℕ) {r c : ℕ} (h : oh ≤ r ∨ ow ≤ c) :
    (untile_image tiles oh ow 512).px r c = 0 := by
  show writeFold _ _ ((grid2 (oh / 512) (ow / 512)).zip tiles) _ (r, c) = 0
  refine writeFold_eq_base ?_ _
  intro e₂ he₂
  obtain ⟨p, t⟩ := e₂
  have hmem : p ∈ grid2 (oh / 512) (ow / 512) := (List.of_mem_zip he₂).1
  have hbounds := mem_grid2.mp hmem
  apply decide_eq_false
  intro hcov
  dsimp only at hcov
  have hy : p.1 + 1 ≤ oh / 512 := hbounds.1
  have hx : p.2 + 1 ≤ ow / 512 := hbounds.2
  have hy' : (p.1 + 1) * 512 ≤ (oh / 512) * 512 := Nat.mul_le_mul_right _ hy
  have hx' : (p.2 + 1) * 512 ≤ (ow / 512) * 512 := Nat.mul_le_mul_right _ hx
  have hdy : (oh / 512) * 512 ≤ oh := Nat.div_mul_le_self oh 512
  have hdx : (ow / 512) * 512 ≤ ow := Nat.div_mul_le_self ow 512
  rcases h with h | h <;> omega

/-- On a 512-aligned image, `tile_image` produces exactly the row-major list
of full 512×512 blocks. -/
theorem tile_image_eq_grid {α : Type} (image : Raster α) {ty tx : ℕ}
    (hh : image.h = 512 * ty) (hw : image.w = 512 * tx) :
    tile_image image 512 = (grid2 ty tx).map fun p =>
      ({ h := 512, w := 512,
         px := fun i j => image.px (p.1 * 512 + i) (p.2 * 512 + j) } : Raster α) := by
  unfold tile_image grid2
  rw [hh, hw, pyRangeStep_512, pyRangeStep_512]
  rw [List.flatMap_map, List.map_flatMap]
  apply List.flatMap_congr
  intro y hy
  rw [List.map_map, List.map_map]
  apply List.map_congr_left
  intro x hx
  have hy2 : y < ty := List.mem_range.mp hy
  have hx2 : x < tx := List.mem_range.mp hx
  have h1 : min 512 (512 * ty - y * 512) = 512 := by
    have : (y + 1) * 512 ≤ ty * 512 := Nat.mul_le_mul_right _ hy2
    omega
  have h2 : min 512 (512 * tx - x * 512) = 512 := by
    have : (x + 1) * 512 ≤ tx * 512 := Nat.mul_le_mul_right _ hx2
    omega
  simp only [Function.comp]
  rw [Raster.mk.injEq]
  refine ⟨h1, h2, ?_⟩
  funext i j
  show image.px (y * 512 + i) (x * 512 + j) = image.px (y * 512 + i) (x * 512 + j)
  rfl

/-- C8: for every raster whose height and width are exact multiples of 512,
`crop_to_multiple_of_512` is a no-op — it returns a raster with the same
dimensions and identical pixel content (here literally the same raster). -/
theorem C8_crop_noop {α : Type} (image : Raster α)
    (hh : 512 ∣ image.h) (hw : 512 ∣ image.w) :
    crop_to_multiple_of_512 image = image := by
  cases image with
  | mk h w px =>
      dsimp only at hh hw
      obtain ⟨a, ha⟩ := hh
      obtain ⟨b, hb⟩ := hw
      show ({ h := h - h % 512, w := w - w % 512, px := px } : Raster α) =
        { h := h, w := w, px := px }
      rw [Raster.mk.injEq]
      exact ⟨by omega, by omega, rfl⟩

theorem C8_crop_noop_witness :
    (512 : ℕ) ∣ 512 ∧ (512 : ℕ) ∣ 1024 ∧
      crop_to_multiple_of_512 ({ h := 512, w := 1024, px := fun _ _ => 0 } : Raster ℕ) =
        { h := 512, w := 1024, px := fun _ _ => 0 } :=
  ⟨⟨1, rfl⟩, ⟨2, rfl⟩, C8_crop_noop _ ⟨1, rfl⟩ ⟨2, rfl⟩⟩

/-- C2: splitting a raster whose height and width are exact multiples of 512
into row-major tiles with `tile_image` and reassembling them with
`untile_image` (given the original height and width) reproduces the
original raster exactly, pixel for pixel, with the original shape. -/
theorem C2_tile_untile_roundtrip {α : Type} [Zero α] (image : Raster α)
    (hh : 512 ∣ image.h) (hw : 512 ∣ image.w) :
    (untile_image (tile_image image 512) image.h image.w 512).h = image.h ∧
    (untile_image (tile_image image 512) image.h image.w 512).w = image.w ∧
    ∀ r c, r < image.h → c < image.w →
      (untile_image (tile_image image 512) image.h image.w 512).px r c = image.px r c := by
  refine ⟨rfl, rfl, ?_⟩
  intro r c hr hc
  obtain ⟨ty, hty⟩ := hh
  obtain ⟨tx, htx⟩ := hw
  have hoh : image.h % 512 = 0 := by omega
  have how : image.w % 512 = 0 := by omega
  rw [untile_px_eq _ hoh how hr hc]
  have h1 : image.h / 512 = ty := by omega
  have h2 : image.w / 512 = tx := by omega
  have hqy : r / 512 < ty := by omega
  have hqx : c / 512 < tx := by omega
  have htxpos : 0 < tx := by omega
  have hlen : (tile_image image 512).length = ty * tx := by
    rw [tile_image_eq_grid image hty htx, List.length_map, grid2_length]
  have hkgrid : (r / 512) * (image.w / 512) + c / 512 < ty * tx := by
    rw [h2]
    calc (r / 512) * tx + c / 512 < (r / 512) * tx + tx := by omega
    _ = (r / 512 + 1) * tx := by ring
    _ ≤ ty * tx := Nat.mul_le_mul_right _ hqy
  have hidx : (r / 512) * (image.w / 512) + c / 512 < (tile_image image 512).length := by
    rw [hlen]
    exact hkgrid
  rw [dif_pos hidx]
  have hdivk : ((r / 512) * (image.w / 512) + c / 512) / tx = r / 512 := by
    rw [h2, Nat.mul_comm (r / 512) tx, Nat.mul_add_div htxpos, Nat.div_eq_of_lt hqx]
    omega
  have hmodk : ((r / 512) * (image.w / 512) + c / 512) % tx = c / 512 := by
    rw [h2, Nat.mul_comm (r / 512) tx, Nat.mul_add_mod]
    exact Nat.mod_eq_of_lt hqx
  have hget : (tile_image image 512).get ⟨(r / 512) * (image.w / 512) + c / 512, hidx⟩ =
      { h := 512, w := 512,
        px := fun i j => image.px ((r / 512) * 512 + i) ((c / 512) * 512 + j) } := by
    rw [List.get_eq_getElem]
    rw [List.getElem_of_eq (tile_image_eq_grid image hty htx)]
    rw [List.getElem_map]
    have hg2 : (r / 512) * (image.w / 512) + c / 512 < (grid2 ty tx).length := by
      rw [grid2_length]
      exact hkgrid
    have hgel := grid2_getElem hkgrid hg2
    rw [List.get_eq_getElem] at hgel
    rw [hgel, hdivk, hmodk]
  rw [hget]
  show image.px ((r / 512) * 512 + r % 512) ((c / 512) * 512 + c % 512) = image.px r c
  have e1 : (r / 512) * 512 + r % 512 = r := by omega
  have e2 : (c / 512) * 512 + c % 512 = c := by omega
  rw [e1, e2]

theorem C2_tile_untile_roundtrip_witness :
    (512 : ℕ) ∣ 512 ∧
      (untile_image
          (tile_image ({ h := 512, w := 512, px := fun r c => r + c } : Raster ℕ) 512)
          512 512 512).px 100 200 = 300 := by
  refine ⟨⟨1, rfl⟩, ?_⟩
  have h := (C2_tile_untile_roundtrip
      ({ h := 512, w := 512, px := fun r c => r + c } : Raster ℕ)
      ⟨1, rfl⟩ ⟨1, rfl⟩).2.2 100 200 (by decide) (by decide)
  simpa using h

/-- The normalized batch handed to the model inside `analyze_image`:
`tiles / 255.0` (line 59 of analysis_service.py). -/
def analyzeNormalizedTiles (image₀ : Raster (Fin 3 → ℚ)) : List (Raster (Fin 3 → ℚ)) :=
  (tile_image (crop_to_multiple_of_512 image₀) 512).map fun t =>
    { h := t.h, w := t.w, px := fun r c ch => t.px r c ch / 255 }

/-- Unfolding of `analyze_image` into its three components. -/
theorem analyze_image_eq (predict : List (Raster (Fin 3 → ℚ)) → List (Raster (List ℚ)))
    (image₀ : Raster (Fin 3 → ℚ)) :
    analyze_image predict image₀ =
      (crop_to_multiple_of_512 image₀,
        untile_image
          (((predict (analyzeNormalizedTiles image₀)).map fun t =>
              ({ h := t.h, w := t.w, px := fun r c => argmaxIdx (t.px r c) } : Raster ℕ)).map
            fun t =>
              ({ h := t.h, w := t.w, px := fun r c => if t.px r c = 3 then 1 else 0 } : Raster ℕ))
          (crop_to_multiple_of_512 image₀).h (crop_to_multiple_of_512 image₀).w 512,
        untile_image
          (((predict (analyzeNormalizedTiles image₀)).map fun t =>
              ({ h := t.h, w := t.w, px := fun r c => argmaxIdx (t.px r c) } : Raster ℕ)).map
            fun t =>
              ({ h := t.h, w := t.w, px := fun r c => if t.px r c = 0 then 1 else 0 } : Raster ℕ))
          (crop_to_multiple_of_512 image₀).h (crop_to_multiple_of_512 image₀).w 512) :=
  rfl

/-- A reconstruction from tiles whose pixels are all `0` or `1` only contains
`0` or `1` (the canvas starts zero-filled). -/
theorem untile_px_zero_one (tiles : List (Raster ℕ)) (oh ow : ℕ)
    (htiles : ∀ t ∈ tiles, ∀ i j, t.px i j = 0 ∨ t.px i j = 1) (r c : ℕ) :
    (untile_image tiles oh ow 512).px r c = 0 ∨
      (untile_image tiles oh ow 512).px r c = 1 := by
  rcases writeFold_cases
      (fun (e : (ℕ × ℕ) × Raster ℕ) i => decide (e.1.1 * 512 ≤ i.1 ∧ i.1 < e.1.1 * 512 + 512 ∧
        e.1.2 * 512 ≤ i.2 ∧ i.2 < e.1.2 * 512 + 512))
      (fun e i => e.2.px (i.1 - e.1.1 * 512) (i.2 - e.1.2 * 512))
      ((grid2 (oh / 512) (ow / 512)).zip tiles) (fun _ => 0) (r, c) with h | ⟨e, he, hval⟩
  · exact Or.inl h
  · obtain ⟨p, t⟩ := e
    have key : (untile_image tiles oh ow 512).px r c =
        t.px (r - p.1 * 512) (c - p.2 * 512) := hval
    rw [key]
    exact htiles t (List.of_mem_zip he).2 _ _

/-- C6: `analyze_image` returns a vegetation mask and a building mask that
take values only in `{0,1}`, have exactly the spatial shape of the cropped
mosaic returned alongside them, and are derived per pixel by comparing the
arg-max class index of the model's class scores at that pixel against the
fixed class identifiers `0` (building) and `3` (vegetation) independently. -/
theorem C6_analyze_image_masks
    (predict : List (Raster (Fin 3 → ℚ)) → List (Raster (List ℚ)))
    (image₀ : Raster (Fin 3 → ℚ))
    (hpredict : ∀ ts, (predict ts).length = ts.length) :
    (∀ r c, ((analyze_image predict image₀).2.1.px r c = 0 ∨
        (analyze_image predict image₀).2.1.px r c = 1) ∧
      ((analyze_image predict image₀).2.2.px r c = 0 ∨
        (analyze_image predict image₀).2.2.px r c = 1)) ∧
    ((analyze_image predict image₀).2.1.h = (analyze_image predict image₀).1.h ∧
      (analyze_image predict image₀).2.1.w = (analyze_image predict image₀).1.w ∧
      (analyze_image predict image₀).2.2.h = (analyze_image predict image₀).1.h ∧
      (analyze_image predict image₀).2.2.w = (analyze_image predict image₀).1.w) ∧
    (∀ r c, r < (analyze_image predict image₀).1.h →
      c < (analyze_image predict image₀).1.w →
      (analyze_image predict image₀).2.2.px r c =
        (if argmaxIdx (((predict (analyzeNormalizedTiles image₀)).getD
            (r / 512 * ((analyze_image predict image₀).1.w / 512) + c / 512)
            { h := 0, w := 0, px := fun _ _ => [] }).px (r % 512) (c % 512)) = 0
          then 1 else 0) ∧
      (analyze_image predict image₀).2.1.px r c =
        (if argmaxIdx (((predict (analyzeNormalizedTiles image₀)).getD
            (r / 512 * ((analyze_image predict image₀).1.w / 512) + c / 512)
            { h := 0, w := 0, px := fun _ _ => [] }).px (r % 512) (c % 512)) = 3
          then 1 else 0)) := by
  rw [analyze_image_eq]
  refine ⟨?vals, ⟨rfl, rfl, rfl, rfl⟩, ?formula⟩
  case vals =>
    intro r c
    constructor
    · apply untile_px_zero_one
      intro t ht i j
      rcases List.mem_map.mp ht with ⟨t₂, ht₂, hval⟩
      rw [← hval]
      by_cases hc : t₂.px i j = 3
      · exact Or.inr (by simp [hc])
      · exact Or.inl (by simp [hc])
    · apply untile_px_zero_one
      intro t ht i j
      rcases List.mem_map.mp ht with ⟨t₂, ht₂, hval⟩
      rw [← hval]
      by_cases hc : t₂.px i j = 0
      · exact Or.inr (by simp [hc])
      · exact Or.inl (by simp [hc])
  case formula =>
    intro r c hr hc
    have hoh : (crop_to_multiple_of_512 image₀).h % 512 = 0 := by
      show (image₀.h - image₀.h % 512) % 512 = 0
      omega
    have how : (crop_to_multiple_of_512 image₀).w % 512 = 0 := by
      show (image₀.w - image₀.w % 512) % 512 = 0
      omega
    rw [untile_px_eq _ hoh how hr hc, untile_px_eq _ hoh how hr hc]
    have hcrh : (crop_to_multiple_of_512 image₀).h = 512 * ((crop_to_multiple_of_512 image₀).h / 512) := by
      omega
    have hcrw : (crop_to_multiple_of_512 image₀).w = 512 * ((crop_to_multiple_of_512 image₀).w / 512) := by
      omega
    have htile_len : (tile_image (crop_to_multiple_of_512 image₀) 512).length =
        ((crop_to_multiple_of_512 image₀).h / 512) * ((crop_to_multiple_of_512 image₀).w / 512) := by
      rw [tile_image_eq_grid _ hcrh hcrw, List.length_map, grid2_length]
    have hplen : (predict (analyzeNormalizedTiles image₀)).length =
        ((crop_to_multiple_of_512 image₀).h / 512) * ((crop_to_multiple_of_512 image₀).w / 512) := by
      rw [hpredict, analyzeNormalizedTiles, List.length_map, htile_len]
    have hr2 : r < (crop_to_multiple_of_512 image₀).h := hr
    have hc2 : c < (crop_to_multiple_of_512 image₀).w := hc
    have hqy : r / 512 < (crop_to_multiple_of_512 image₀).h / 512 := by omega
    have hqx : c / 512 < (crop_to_multiple_of_512 image₀).w / 512 := by omega
    have hkgrid : r / 512 * ((crop_to_multiple_of_512 image₀).w / 512) + c / 512 <
        ((crop_to_multiple_of_512 image₀).h / 512) * ((crop_to_multiple_of_512 image₀).w / 512) := by
      calc r / 512 * ((crop_to_multiple_of_512 image₀).w / 512) + c / 512
          < r / 512 * ((crop_to_multiple_of_512 image₀).w / 512) +
            ((crop_to_multiple_of_512 image₀).w / 512) := by omega
      _ = (r / 512 + 1) * ((crop_to_multiple_of_512 image₀).w / 512) := by ring
      _ ≤ ((crop_to_multiple_of_512 image₀).h / 512) *
            ((crop_to_multiple_of_512 image₀).w / 512) := Nat.mul_le_mul_right _ hqy
    have hpidx : r / 512 * ((crop_to_multiple_of_512 image₀).w / 512) + c / 512 <
        (predict (analyzeNormalizedTiles image₀)).length := by omega
    have hidx0 : r / 512 * ((crop_to_multiple_of_512 image₀).w / 512) + c / 512 <
        (((predict (analyzeNormalizedTiles image₀)).map fun t =>
            ({ h := t.h, w := t.w, px := fun r c => argmaxIdx (t.px r c) } : Raster ℕ)).map
          fun t =>
            ({ h := t.h, w := t.w, px := fun r c => if t.px r c = 0 then 1 else 0 } : Raster ℕ)).length := by
      simpa using hpidx
    have hidx3 : r / 512 * ((crop_to_multiple_of_512 image₀).w / 512) + c / 512 <
        (((predict (analyzeNormalizedTiles image₀)).map fun t =>
            ({ h := t.h, w := t.w, px := fun r c => argmaxIdx (t.px r c) } : Raster ℕ)).map
          fun t =>
            ({ h := t.h, w := t.w, px := fun r c => if t.px r c = 3 then 1 else 0 } : Raster ℕ)).length := by
      simpa using hpidx
    rw [dif_pos hidx0, dif_pos hidx3]
    rw [List.get_eq_getElem, List.get_eq_getElem, List.getElem_map, List.getElem_map,
      List.getElem_map, List.getElem_map]
    rw [List.getD_eq_getElem _ _ hpidx]
    exact ⟨rfl, rfl⟩

theorem C6_analyze_image_masks_witness :
    (∀ ts : List (Raster (Fin 3 → ℚ)),
      ((fun ts : List (Raster (Fin 3 → ℚ)) => ts.map fun t =>
        ({ h := t.h, w := t.w, px := fun _ _ => ([1] : List ℚ) } : Raster (List ℚ))) ts).length =
        ts.length) ∧
    ((analyze_image (fun ts => ts.map fun t =>
        ({ h := t.h, w := t.w, px := fun _ _ => ([1] : List ℚ) } : Raster (List ℚ)))
        ({ h := 512, w := 512, px := fun _ _ _ => 0 } : Raster (Fin 3 → ℚ))).2.1.px 7 9 = 0 ∨
      (analyze_image (fun ts => ts.map fun t =>
        ({ h := t.h, w := t.w, px := fun _ _ => ([1] : List ℚ) } : Raster (List ℚ)))
        ({ h := 512, w := 512, px := fun _ _ _ => 0 } : Raster (Fin 3 → ℚ))).2.1.px 7 9 = 1) :=
  ⟨fun ts => List.length_map ts _,
    ((C6_analyze_image_masks _ _ (fun ts => List.length_map ts _)).1 7 9).1⟩

/-- C9: the building and vegetation masks returned by `analyze_image` are
pixel-wise disjoint — no pixel is `1` in both masks, because the pixel's
single arg-max class index cannot equal both fixed identifiers `0`
(building) and `3` (vegetation) at once. -/
theorem C9_masks_disjoint
    (predict : List (Raster (Fin 3 → ℚ)) → List (Raster (List ℚ)))
    (image₀ : Raster (Fin 3 → ℚ)) (r c : ℕ) :
    ¬((analyze_image predict image₀).2.2.px r c = 1 ∧
      (analyze_image predict image₀).2.1.px r c = 1) := by
  rw [analyze_image_eq]
  rintro ⟨hb, hv⟩
  dsimp only at hb hv
  by_cases hr : r < (crop_to_multiple_of_512 image₀).h
  · by_cases hc : c < (crop_to_multiple_of_512 image₀).w
    · have hoh : (crop_to_multiple_of_512 image₀).h % 512 = 0 := by
        show (image₀.h - image₀.h % 512) % 512 = 0
        omega
      have how : (crop_to_multiple_of_512 image₀).w % 512 = 0 := by
        show (image₀.w - image₀.w % 512) % 512 = 0
        omega
      rw [untile_px_eq _ hoh how hr hc] at hb hv
      simp only [List.length_map] at hb hv
      by_cases hidx : r / 512 * ((crop_to_multiple_of_512 image₀).w / 512) + c / 512 <
          (predict (analyzeNormalizedTiles image₀)).length
      · rw [dif_pos hidx] at hb hv
        rw [List.get_eq_getElem, List.getElem_map, List.getElem_map] at hb hv
        dsimp only at hb hv
        split_ifs at hb hv <;> omega
      · rw [dif_neg hidx] at hb
        exact absurd hb (by norm_num)
    · rw [untile_px_outside _ _ _ (Or.inr (Nat.le_of_not_lt hc))] at hb
      exact absurd hb (by norm_num)
  · rw [untile_px_outside _ _ _ (Or.inl (Nat.le_of_not_lt hr))] at hb
    exact absurd hb (by norm_num)

/-! ### live_satellite_service.py -/

/-- Python `int()` on a float: truncation toward zero. -/
noncomputable def pyInt (x : ℝ) : ℤ := if 0 ≤ x then ⌊x⌋ else ⌈x⌉

/-- Embedding of `LiveSatelliteService._project_with_scale` (lines 52-58):
the spherical Mercator forward transform, with `siny` clamped as
`min(max(siny, -0.9999), 0.9999)`. -/
noncomputable def project_with_scale (lat lon : ℝ) (scale : ℕ) : ℝ × ℝ :=
  let siny₀ := Real.sin (lat * Real.pi / 180)
  let siny := min (max siny₀ (-0.9999)) 0.9999
  ((scale : ℝ) * (0.5 + lon / 360),
    (scale : ℝ) * (0.5 - Real.log ((1 + siny) / (1 - siny)) / (4 * Real.pi)))

/-- The projection exactly as the specification words it: `siny =
sin(lat*π/180)` clamped to the interval `[-0.9999, 0.9999]`, `x = scale *
(0.5 + lon/360)`, `y = scale * (0.5 - ln((1+siny)/(1-siny))/(4π))`. -/
noncomputable def projectSpec (lat lon : ℝ) (scale : ℕ) : ℝ × ℝ :=
  let siny := max (-0.9999) (min 0.9999 (Real.sin (lat * Real.pi / 180)))
  ((scale : ℝ) * (0.5 + lon / 360),
    (scale : ℝ) * (0.5 - Real.log ((1 + siny) / (1 - siny)) / (4 * Real.pi)))

theorem clamp_comm (s a b : ℝ) (hab : a ≤ b) :
    min (max s a) b = max a (min b s) := by
  rcases le_total s a with h | h
  · rw [max_eq_right h, min_eq_left hab, max_eq_left]
    exact min_le_of_right_le h
  · rcases le_total s b with h2 | h2
    · rw [max_eq_left h, min_eq_left h2, min_eq_right h2, max_eq_right h]
    · rw [max_eq_left h, min_eq_right h2, min_eq_left h2, max_eq_right hab]

/-- C3: for every latitude, longitude and scale, the projection returns
exactly `x = scale*(0.5 + lon/360)` and `y = scale*(0.5 -
ln((1+siny)/(1-siny))/(4π))` with `siny = sin(lat*π/180)` clamped to
`[-0.9999, 0.9999]`. -/
theorem C3_projection_formula (lat lon : ℝ) (scale : ℕ) :
    project_with_scale lat lon scale = projectSpec lat lon scale := by
  unfold project_with_scale projectSpec
  dsimp only
  rw [clamp_comm _ _ _ (by norm_num : (-0.9999:ℝ) ≤ 0.9999)]

/-- The integer quantities computed by `fetch_satellite_region`
(lines 84-105) before any tile is requested. -/
structure RegionGeom where
  tl_pixel_x : ℤ
  tl_pixel_y : ℤ
  br_pixel_x : ℤ
  br_pixel_y : ℤ
  tl_tile_x : ℤ
  tl_tile_y : ℤ
  br_tile_x : ℤ
  br_tile_y : ℤ
  img_w : ℤ
  img_h : ℤ

/-- Lines 84-105: `scale = 1 << zoom`, projection of the `(north, west)` and
`(south, east)` corners, pixel coordinates `int(proj * tile_size)` with
`tile_size = 256`, tile indices `int(proj)`, and canvas dimensions
`img_w = abs(tl_pixel_x - br_pixel_x)`, `img_h = br_pixel_y - tl_pixel_y`. -/
noncomputable def regionGeom (north_lat west_lon south_lat east_lon : ℝ)
    (zoom : ℕ) : RegionGeom :=
  let scale := 2 ^ zoom
  let tl := project_with_scale north_lat west_lon scale
  let br := project_with_scale south_lat east_lon scale
  let tl_pixel_x := pyInt (tl.1 * 256)
  let tl_pixel_y := pyInt (tl.2 * 256)
  let br_pixel_x := pyInt (br.1 * 256)
  let br_pixel_y := pyInt (br.2 * 256)
  { tl_pixel_x := tl_pixel_x
    tl_pixel_y := tl_pixel_y
    br_pixel_x := br_pixel_x
    br_pixel_y := br_pixel_y
    tl_tile_x := pyInt tl.1
    tl_tile_y := pyInt tl.2
    br_tile_x := pyInt br.1
    br_tile_y := pyInt br.2
    img_w := |tl_pixel_x - br_pixel_x|
    img_h := br_pixel_y - tl_pixel_y }

/-- Python `range(a, b + 1)` over integers (inclusive tile index range). -/
def intRangeIncl (a b : ℤ) : List ℤ :=
  (List.range (b + 1 - a).toNat).map fun (i : ℕ) => a + (i : ℤ)

theorem mem_intRangeIncl {a b x : ℤ} :
    x ∈ intRangeIncl a b ↔ a ≤ x ∧ x ≤ b := by
  unfold intRangeIncl
  rw [List.mem_map]
  constructor
  · rintro ⟨i, hi, rfl⟩
    rw [List.mem_range] at hi
    omega
  · rintro ⟨h1, h2⟩
    refine ⟨(x - a).toNat, ?_, ?_⟩
    · rw [List.mem_range]
      omega
    · omega

/-- The covering tile grid in the iteration order of lines 121-124
(`tile_y` outer, `tile_x` inner); elements are `(tile_x, tile_y)`, the order
in which the download tasks are created and `asyncio.gather` returns their
results. -/
def gridTiles (g : RegionGeom) : List (ℤ × ℤ) :=
  (intRangeIncl g.tl_tile_y g.br_tile_y).flatMap fun tile_y =>
    (intRangeIncl g.tl_tile_x g.br_tile_x).map fun tile_x => (tile_x, tile_y)

theorem mem_gridTiles {g : RegionGeom} {p : ℤ × ℤ} :
    p ∈ gridTiles g ↔
      (g.tl_tile_x ≤ p.1 ∧ p.1 ≤ g.br_tile_x) ∧
        (g.tl_tile_y ≤ p.2 ∧ p.2 ≤ g.br_tile_y) := by
  cases p with
  | mk x y =>
      simp only [gridTiles, List.mem_flatMap, List.mem_map, mem_intRangeIncl]
      constructor
      · rintro ⟨b, hb, a, ha, h⟩
        cases h
        exact ⟨ha, hb⟩
      · rintro ⟨hx, hy⟩
        exact ⟨y, hy, x, hx, rfl⟩

/-- Write condition of the slice assignment on line 154 for the gathered
result `(tile_x, tile_y, tile)` at canvas pixel `i = (row, col)`: the tile
was fetched and `i` lies inside the clipped destination rectangle of lines
136-145 (`img_y_l ≤ row < img_y_r`, `img_x_l ≤ col < img_x_r`). -/
def stitchCovers {α : Type} (tlpx tlpy w h : ℤ)
    (e : ℤ × ℤ × Option (ℤ → ℤ → α)) (i : ℤ × ℤ) : Bool :=
  e.2.2.isSome &&
    decide (max 0 (e.2.1 * 256 - tlpy) ≤ i.1 ∧
      i.1 < min h (e.2.1 * 256 - tlpy + 256) ∧
      max 0 (e.1 * 256 - tlpx) ≤ i.2 ∧
      i.2 < min w (e.1 * 256 - tlpx + 256))

/-- Value written there: the source pixel `(cr_y_l + (row - img_y_l),
cr_x_l + (col - img_x_l))` of the tile, with `cr_y_l = max(0, -tl_rel_y)`
and `cr_x_l = max(0, -tl_rel_x)` from lines 147-151. -/
def stitchValue {α : Type} [Zero α] (tlpx tlpy : ℤ)
    (e : ℤ × ℤ × Option (ℤ → ℤ → α)) (i : ℤ × ℤ) : α :=
  match e.2.2 with
  | some tile =>
      tile (max 0 (-(e.2.1 * 256 - tlpy)) + (i.1 - max 0 (e.2.1 * 256 - tlpy)))
        (max 0 (-(e.1 * 256 - tlpx)) + (i.2 - max 0 (e.1 * 256 - tlpx)))
  | none => 0

/-- The stitched canvas: `np.zeros((img_h, img_w, 3))` (line 112) followed by
one clipped rectangle write per successfully fetched tile (lines 129-154). -/
def stitchCanvas {α : Type} [Zero α] (tlpx tlpy w h : ℤ)
    (results : List (ℤ × ℤ × Option (ℤ → ℤ → α))) : ℤ × ℤ → α :=
  writeFold (stitchCovers tlpx tlpy w h) (stitchValue tlpx tlpy) results fun _ => 0

/-- Raster with integer shape — the mosaic returned by the region fetch. -/
structure ZRaster (α : Type) where
  h : ℤ
  w : ℤ
  px : ℤ × ℤ → α

/-- Embedding of `fetch_satellite_region` (lines 77-168).  The network is
abstracted by `oracle`, giving for each `(tile_x, tile_y)` the decoded tile
or `none` on any failure — the per-tile outcome of `_download_tile_async`.
`asyncio.gather` preserves task creation order, so the gathered result list
is the row-major grid paired with the oracle's outcomes.  The function
returns `None` on non-positive computed dimensions (lines 107-109), and
otherwise the stitched canvas if at least one tile succeeded, `None` when
zero tiles succeeded (line 168). -/
noncomputable def fetch_satellite_region {α : Type} [Zero α]
    (north_lat west_lon south_lat east_lon : ℝ) (zoom : ℕ)
    (oracle : ℤ → ℤ → Option (ℤ → ℤ → α)) : Option (ZRaster α) :=
  let g := regionGeom north_lat west_lon south_lat east_lon zoom
  if g.img_w ≤ 0 ∨ g.img_h ≤ 0 then none
  else
    let results := (gridTiles g).map fun p => (p.1, p.2, oracle p.1 p.2)
    let img : ZRaster α :=
      ⟨g.img_h, g.img_w, stitchCanvas g.tl_pixel_x g.tl_pixel_y g.img_w g.img_h results⟩
    let tiles_downloaded := (results.filter fun e => e.2.2.isSome).length
    if 0 < tiles_downloaded then some img else none

/-- The destination and source rectangle bounds of lines 136-151 for the
tile at grid position `(tile_x, tile_y)`. -/
structure TileRects where
  img_x_l : ℤ
  img_x_r : ℤ
  img_y_l : ℤ
  img_y_r : ℤ
  cr_x_l : ℤ
  cr_x_r : ℤ
  cr_y_l : ℤ
  cr_y_r : ℤ

/-- Lines 136-151 verbatim: `tl_rel = tile*256 - tl_pixel`,
`img_l = max(0, tl_rel)`, `img_r = min(img_dim, tl_rel + 256)`,
`cr_l = max(0, -tl_rel)`, `cr_r = 256 + min(0, img_dim - (tl_rel + 256))`. -/
def tileRects (tlpx tlpy w h tile_x tile_y : ℤ) : TileRects :=
  let tl_rel_x := tile_x * 256 - tlpx
  let tl_rel_y := tile_y * 256 - tlpy
  let br_rel_x := tl_rel_x + 256
  let br_rel_y := tl_rel_y + 256
  { img_x_l := max 0 tl_rel_x
    img_x_r := min w br_rel_x
    img_y_l := max 0 tl_rel_y
    img_y_r := min h br_rel_y
    cr_x_l := max 0 (-tl_rel_x)
    cr_x_r := 256 + min 0 (w - br_rel_x)
    cr_y_l := max 0 (-tl_rel_y)
    cr_y_r := 256 + min 0 (h - br_rel_y) }

theorem pyInt_of_nonneg {x : ℝ} (hx : 0 ≤ x) : pyInt x = ⌊x⌋ := if_pos hx

theorem pyInt_mono {x y : ℝ} (hxy : x ≤ y) : pyInt x ≤ pyInt y := by
  unfold pyInt
  split_ifs with h1 h2 h2
  · exact Int.floor_le_floor hxy
  · exact absurd (le_trans h1 hxy) h2
  · calc ⌈x⌉ ≤ (0 : ℤ) := Int.ceil_le.mpr (by
        push_cast
        exact le_of_lt (lt_of_not_le h1))
    _ ≤ ⌊y⌋ := Int.floor_nonneg.mpr h2
  · exact Int.ceil_le_ceil hxy

theorem pyInt_eval {x : ℝ} {z : ℤ} (h0 : 0 ≤ x) (h1 : (z : ℝ) ≤ x)
    (h2 : x < z + 1) : pyInt x = z := by
  rw [pyInt_of_nonneg h0]
  exact Int.floor_eq_iff.mpr ⟨h1, h2⟩

/-- The pixel coordinate `int(p * 256)` of a nonnegative projected value sits
inside the 256-pixel window of its tile index `int(p)`. -/
theorem pixel_tile_bounds {p : ℝ} (hp : 0 ≤ p) :
    pyInt p * 256 ≤ pyInt (p * 256) ∧ pyInt (p * 256) < pyInt p * 256 + 256 := by
  have h256 : (0 : ℝ) ≤ p * 256 := by positivity
  rw [pyInt_of_nonneg hp, pyInt_of_nonneg h256]
  constructor
  · apply Int.le_floor.mpr
    push_cast
    exact mul_le_mul_of_nonneg_right (Int.floor_le p) (by norm_num)
  · apply Int.floor_lt.mpr
    push_cast
    nlinarith [Int.lt_floor_add_one p]

/-- Unfolding of `regionGeom` to its building blocks. -/
theorem regionGeom_def (n w s e : ℝ) (zoom : ℕ) :
    regionGeom n w s e zoom =
      { tl_pixel_x := pyInt ((project_with_scale n w (2 ^ zoom)).1 * 256)
        tl_pixel_y := pyInt ((project_with_scale n w (2 ^ zoom)).2 * 256)
        br_pixel_x := pyInt ((project_with_scale s e (2 ^ zoom)).1 * 256)
        br_pixel_y := pyInt ((project_with_scale s e (2 ^ zoom)).2 * 256)
        tl_tile_x := pyInt (project_with_scale n w (2 ^ zoom)).1
        tl_tile_y := pyInt (project_with_scale n w (2 ^ zoom)).2
        br_tile_x := pyInt (project_with_scale s e (2 ^ zoom)).1
        br_tile_y := pyInt (project_with_scale s e (2 ^ zoom)).2
        img_w := |pyInt ((project_with_scale n w (2 ^ zoom)).1 * 256) -
          pyInt ((project_with_scale s e (2 ^ zoom)).1 * 256)|
        img_h := pyInt ((project_with_scale s e (2 ^ zoom)).2 * 256) -
          pyInt ((project_with_scale n w (2 ^ zoom)).2 * 256) } := rfl

/-- When the projected corners are nonnegative and ordered (top-left before
bottom-right on both axes), the computed pixel and tile coordinates satisfy
the per-axis window inequalities and the width loses its absolute value. -/
theorem regionGeom_facts (n w s e : ℝ) (zoom : ℕ)
    (hx0 : 0 ≤ (project_with_scale n w (2 ^ zoom)).1)
    (hy0 : 0 ≤ (project_with_scale n w (2 ^ zoom)).2)
    (hxo : (project_with_scale n w (2 ^ zoom)).1 ≤ (project_with_scale s e (2 ^ zoom)).1)
    (hyo : (project_with_scale n w (2 ^ zoom)).2 ≤ (project_with_scale s e (2 ^ zoom)).2) :
    (regionGeom n w s e zoom).tl_tile_x * 256 ≤ (regionGeom n w s e zoom).tl_pixel_x ∧
    (regionGeom n w s e zoom).tl_pixel_x < (regionGeom n w s e zoom).tl_tile_x * 256 + 256 ∧
    (regionGeom n w s e zoom).br_tile_x * 256 ≤ (regionGeom n w s e zoom).br_pixel_x ∧
    (regionGeom n w s e zoom).br_pixel_x < (regionGeom n w s e zoom).br_tile_x * 256 + 256 ∧
    (regionGeom n w s e zoom).tl_tile_y * 256 ≤ (regionGeom n w s e zoom).tl_pixel_y ∧
    (regionGeom n w s e zoom).tl_pixel_y < (regionGeom n w s e zoom).tl_tile_y * 256 + 256 ∧
    (regionGeom n w s e zoom).br_tile_y * 256 ≤ (regionGeom n w s e zoom).br_pixel_y ∧
    (regionGeom n w s e zoom).br_pixel_y < (regionGeom n w s e zoom).br_tile_y * 256 + 256 ∧
    (regionGeom n w s e zoom).tl_pixel_x ≤ (regionGeom n w s e zoom).br_pixel_x ∧
    (regionGeom n w s e zoom).tl_pixel_y ≤ (regionGeom n w s e zoom).br_pixel_y ∧
    (regionGeom n w s e zoom).tl_tile_x ≤ (regionGeom n w s e zoom).br_tile_x ∧
    (regionGeom n w s e zoom).tl_tile_y ≤ (regionGeom n w s e zoom).br_tile_y ∧
    (regionGeom n w s e zoom).img_w =
      (regionGeom n w s e zoom).br_pixel_x - (regionGeom n w s e zoom).tl_pixel_x ∧
    (regionGeom n w s e zoom).img_h =
      (regionGeom n w s e zoom).br_pixel_y - (regionGeom n w s e zoom).tl_pixel_y := by
  have hx0' : 0 ≤ (project_with_scale s e (2 ^ zoom)).1 := le_trans hx0 hxo
  have hy0' : 0 ≤ (project_with_scale s e (2 ^ zoom)).2 := le_trans hy0 hyo
  have b1 := pixel_tile_bounds hx0
  have b2 := pixel_tile_bounds hx0'
  have b3 := pixel_tile_bounds hy0
  have b4 := pixel_tile_bounds hy0'
  have hpx : pyInt ((project_with_scale n w (2 ^ zoom)).1 * 256) ≤
      pyInt ((project_with_scale s e (2 ^ zoom)).1 * 256) :=
    pyInt_mono (by nlinarith)
  have hpy : pyInt ((project_with_scale n w (2 ^ zoom)).2 * 256) ≤
      pyInt ((project_with_scale s e (2 ^ zoom)).2 * 256) :=
    pyInt_mono (by nlinarith)
  have htx : pyInt (project_with_scale n w (2 ^ zoom)).1 ≤
      pyInt (project_with_scale s e (2 ^ zoom)).1 := pyInt_mono hxo
  have hty : pyInt (project_with_scale n w (2 ^ zoom)).2 ≤
      pyInt (project_with_scale s e (2 ^ zoom)).2 := pyInt_mono hyo
  rw [regionGeom_def]
  refine ⟨b1.1, b1.2, b2.1, b2.2, b3.1, b3.2, b4.1, b4.2, hpx, hpy, htx, hty, ?_, rfl⟩
  dsimp only
  rw [abs_of_nonpos (by omega)]
  ring

/-- Clipped destination rectangles of distinct grid positions never touch the
same canvas pixel: a write at column `c` forces `tile_x * 256 ≤ c +
tl_pixel_x < tile_x * 256 + 256`, which pins `tile_x` (and likewise
`tile_y`). -/
theorem stitch_writes_disjoint {α : Type} (tlpx tlpy w h : ℤ)
    (e₁ e₂ : ℤ × ℤ × Option (ℤ → ℤ → α))
    (hne : e₁.1 ≠ e₂.1 ∨ e₁.2.1 ≠ e₂.2.1) (i : ℤ × ℤ) :
    ¬(stitchCovers tlpx tlpy w h e₁ i = true ∧
      stitchCovers tlpx tlpy w h e₂ i = true) := by
  rintro ⟨h1, h2⟩
  simp only [stitchCovers, Bool.and_eq_true, decide_eq_true_eq] at h1 h2
  rcases hne with hne | hne
  · exact hne (by omega)
  · exact hne (by omega)

/-- Every nonnegative pixel offset is owned by exactly one 256-pixel window. -/
theorem owner_exists (q : ℤ) (hq : 0 ≤ q) :
    ∃ t : ℤ, t * 256 ≤ q ∧ q < t * 256 + 256 :=
  ⟨((q.toNat / 256 : ℕ) : ℤ), by omega, by omega⟩

/-- A canvas pixel whose owning tile is `(tx, ty)` and was fetched
successfully ends up holding exactly that tile's pixel at offset
`(r - tl_rel_y, c - tl_rel_x)`. -/
theorem stitch_px_some {α : Type} [Zero α] (g : RegionGeom)
    (oracle : ℤ → ℤ → Option (ℤ → ℤ → α)) {r c tx ty : ℤ} {tile : ℤ → ℤ → α}
    (hgx1 : g.tl_tile_x ≤ tx) (hgx2 : tx ≤ g.br_tile_x)
    (hgy1 : g.tl_tile_y ≤ ty) (hgy2 : ty ≤ g.br_tile_y)
    (hr0 : 0 ≤ r) (hrh : r < g.img_h) (hc0 : 0 ≤ c) (hcw : c < g.img_w)
    (hox1 : tx * 256 ≤ c + g.tl_pixel_x) (hox2 : c + g.tl_pixel_x < tx * 256 + 256)
    (hoy1 : ty * 256 ≤ r + g.tl_pixel_y) (hoy2 : r + g.tl_pixel_y < ty * 256 + 256)
    (htile : oracle tx ty = some tile) :
    stitchCanvas g.tl_pixel_x g.tl_pixel_y g.img_w g.img_h
        ((gridTiles g).map fun p => (p.1, p.2, oracle p.1 p.2)) (r, c) =
      tile (r - (ty * 256 - g.tl_pixel_y)) (c - (tx * 256 - g.tl_pixel_x)) := by
  unfold stitchCanvas
  have hmem : ((tx, ty, oracle tx ty) : ℤ × ℤ × Option (ℤ → ℤ → α)) ∈
      (gridTiles g).map fun p => (p.1, p.2, oracle p.1 p.2) :=
    List.mem_map.mpr ⟨(tx, ty), mem_gridTiles.mpr ⟨⟨hgx1, hgx2⟩, ⟨hgy1, hgy2⟩⟩, rfl⟩
  rw [writeFold_eq_of_unique hmem ?hP ?huniq]
  · unfold stitchValue
    simp only [htile]
    have e1 : max 0 (-(ty * 256 - g.tl_pixel_y)) +
        ((r, c).1 - max 0 (ty * 256 - g.tl_pixel_y)) = r - (ty * 256 - g.tl_pixel_y) := by
      omega
    have e2 : max 0 (-(tx * 256 - g.tl_pixel_x)) +
        ((r, c).2 - max 0 (tx * 256 - g.tl_pixel_x)) = c - (tx * 256 - g.tl_pixel_x) := by
      omega
    rw [e1, e2]
  case hP =>
    simp only [stitchCovers, htile, Option.isSome_some, Bool.true_and, decide_eq_true_eq]
    omega
  case huniq =>
    rintro e₂ he₂ hP₂
    rcases List.mem_map.mp he₂ with ⟨p, hp, rfl⟩
    simp only [stitchCovers, Bool.and_eq_true, decide_eq_true_eq] at hP₂
    obtain ⟨hsome, hbounds⟩ := hP₂
    have h1 : p.1 = tx := by omega
    have h2 : p.2 = ty := by omega
    rw [h1, h2]

/-- A canvas pixel whose owning tile failed to download is never written and
keeps the zero fill. -/
theorem stitch_px_none {α : Type} [Zero α] (g : RegionGeom)
    (oracle : ℤ → ℤ → Option (ℤ → ℤ → α)) {r c tx ty : ℤ}
    (hox1 : tx * 256 ≤ c + g.tl_pixel_x) (hox2 : c + g.tl_pixel_x < tx * 256 + 256)
    (hoy1 : ty * 256 ≤ r + g.tl_pixel_y) (hoy2 : r + g.tl_pixel_y < ty * 256 + 256)
    (htile : oracle tx ty = none) :
    stitchCanvas g.tl_pixel_x g.tl_pixel_y g.img_w g.img_h
        ((gridTiles g).map fun p => (p.1, p.2, oracle p.1 p.2)) (r, c) = 0 := by
  unfold stitchCanvas
  refine writeFold_eq_base ?_ _
  intro e₂ he₂
  rcases List.mem_map.mp he₂ with ⟨p, hp, rfl⟩
  unfold stitchCovers
  cases hor : oracle p.1 p.2 with
  | none => simp [hor]
  | some t =>
      simp only [hor, Option.isSome_some, Bool.true_and]
      apply decide_eq_false
      dsimp only
      intro hbounds
      have h1 : p.1 = tx := by omega
      have h2 : p.2 = ty := by omega
      rw [h1, h2] at hor
      rw [htile] at hor
      cases hor

theorem log19999_gt : (7 : ℝ) < Real.log 19999 := by
  apply (Real.lt_log_iff_exp_lt (by norm_num : (0:ℝ) < 19999)).mpr
  rw [show (7:ℝ) = ((7:ℕ):ℝ) * 1 by norm_num, Real.exp_nat_mul]
  calc Real.exp 1 ^ 7 < 2.7182818286 ^ 7 :=
        pow_lt_pow_left Real.exp_one_lt_d9 (le_of_lt (Real.exp_pos 1)) (by norm_num)
  _ < 19999 := by norm_num

theorem log19999_lt : Real.log 19999 < 10 := by
  apply (Real.log_lt_iff_lt_exp (by norm_num : (0:ℝ) < 19999)).mpr
  rw [show (10:ℝ) = ((10:ℕ):ℝ) * 1 by norm_num, Real.exp_nat_mul]
  calc (19999 : ℝ) < 2.7182818283 ^ 10 := by norm_num
  _ < Real.exp 1 ^ 10 :=
        pow_lt_pow_left Real.exp_one_gt_d9 (by norm_num) (by norm_num)

/-- Projection of a point on the equator at zoom 0. -/
theorem project_zero_lat (lon : ℝ) :
    project_with_scale 0 lon (2 ^ 0) = (0.5 + lon / 360, 0.5) := by
  unfold project_with_scale
  dsimp only
  rw [Prod.mk.injEq]
  constructor
  · norm_num
  · have h1 : Real.sin ((0:ℝ) * Real.pi / 180) = 0 := by
      rw [show (0:ℝ) * Real.pi / 180 = 0 by ring]
      exact Real.sin_zero
    rw [h1]
    have h2 : min (max (0:ℝ) (-0.9999)) 0.9999 = 0 := by
      rw [max_eq_left (by norm_num), min_eq_left (by norm_num)]
    rw [h2]
    norm_num [Real.log_one]

/-- Projection of the south pole at zoom 0: `sin` hits the clamp at
`-0.9999`, turning the log argument into `1/19999`. -/
theorem project_neg90_lat (lon : ℝ) :
    project_with_scale (-90) lon (2 ^ 0) =
      (0.5 + lon / 360, 0.5 + Real.log 19999 / (4 * Real.pi)) := by
  unfold project_with_scale
  dsimp only
  rw [Prod.mk.injEq]
  refine ⟨by norm_num, ?_⟩
  have h1 : Real.sin ((-90:ℝ) * Real.pi / 180) = -1 := by
    rw [show (-90:ℝ) * Real.pi / 180 = -(Real.pi / 2) by ring, Real.sin_neg,
      Real.sin_pi_div_two]
  rw [h1]
  have h2 : min (max (-1:ℝ) (-0.9999)) 0.9999 = -0.9999 := by
    rw [max_eq_right (by norm_num), min_eq_left (by norm_num)]
  rw [h2]
  have h3 : ((1:ℝ) + -0.9999) / (1 - -0.9999) = 1 / 19999 := by norm_num
  rw [h3, one_div, Real.log_inv]
  push_cast
  ring

theorem logFrac_ge : (0.5 : ℝ) ≤ Real.log 19999 / (4 * Real.pi) := by
  have h4π : (0:ℝ) < 4 * Real.pi := by positivity
  rw [le_div_iff h4π]
  nlinarith [log19999_gt, Real.pi_lt_d2]

theorem logFrac_lt : Real.log 19999 / (4 * Real.pi) < 1.5 := by
  have h4π : (0:ℝ) < 4 * Real.pi := by positivity
  rw [div_lt_iff h4π]
  nlinarith [log19999_lt, Real.pi_gt_d6]

theorem brPixelY_ge :
    (129 : ℤ) ≤ pyInt ((0.5 + Real.log 19999 / (4 * Real.pi)) * 256) := by
  have hge := logFrac_ge
  have harg : (0:ℝ) ≤ (0.5 + Real.log 19999 / (4 * Real.pi)) * 256 := by nlinarith
  rw [pyInt_of_nonneg harg]
  apply Int.le_floor.mpr
  push_cast
  nlinarith

theorem brTileY_eq : pyInt (0.5 + Real.log 19999 / (4 * Real.pi)) = 1 := by
  have hge := logFrac_ge
  have hlt := logFrac_lt
  apply pyInt_eval (by nlinarith)
  · push_cast
    nlinarith
  · push_cast
    nlinarith

/-- Concrete region with corners in the correct order: north 0, west -90,
south -90, east 90, zoom 0. -/
theorem geomA :
    (regionGeom 0 (-90) (-90) 90 0).tl_pixel_x = 64 ∧
    (regionGeom 0 (-90) (-90) 90 0).br_pixel_x = 192 ∧
    (regionGeom 0 (-90) (-90) 90 0).tl_pixel_y = 128 ∧
    129 ≤ (regionGeom 0 (-90) (-90) 90 0).br_pixel_y ∧
    (regionGeom 0 (-90) (-90) 90 0).img_w = 128 ∧
    0 < (regionGeom 0 (-90) (-90) 90 0).img_h ∧
    (regionGeom 0 (-90) (-90) 90 0).tl_tile_x = 0 ∧
    (regionGeom 0 (-90) (-90) 90 0).br_tile_x = 0 ∧
    (regionGeom 0 (-90) (-90) 90 0).tl_tile_y = 0 ∧
    (regionGeom 0 (-90) (-90) 90 0).br_tile_y = 1 := by
  rw [regionGeom_def, project_zero_lat, project_neg90_lat]
  dsimp only
  have e1 : ((0.5:ℝ) + -90 / 360) * 256 = 64 := by norm_num
  have e2 : ((0.5:ℝ) + 90 / 360) * 256 = 192 := by norm_num
  have e3 : (0.5:ℝ) * 256 = 128 := by norm_num
  rw [e1, e2, e3]
  have p1 : pyInt (64:ℝ) = 64 := pyInt_eval (by norm_num) (by norm_num) (by norm_num)
  have p2 : pyInt (192:ℝ) = 192 := pyInt_eval (by norm_num) (by norm_num) (by norm_num)
  have p3 : pyInt (128:ℝ) = 128 := pyInt_eval (by norm_num) (by norm_num) (by norm_num)
  have p4 := brPixelY_ge
  have t1 : pyInt ((0.5:ℝ) + -90 / 360) = 0 :=
    pyInt_eval (by norm_num) (by norm_num) (by norm_num)
  have t2 : pyInt ((0.5:ℝ) + 90 / 360) = 0 :=
    pyInt_eval (by norm_num) (by norm_num) (by norm_num)
  have t3 : pyInt (0.5:ℝ) = 0 := pyInt_eval (by norm_num) (by norm_num) (by norm_num)
  have t4 := brTileY_eq
  rw [p1, p2, p3, t1, t2, t3, t4]
  refine ⟨rfl, rfl, rfl, p4, by decide, by omega, rfl, rfl, rfl, rfl⟩

/-- Concrete region with west/east longitudes swapped (west 90 > east -90):
the absolute value makes the computed width positive anyway. -/
theorem geomB :
    (regionGeom 0 90 (-90) (-90) 0).img_w = 128 ∧
    0 < (regionGeom 0 90 (-90) (-90) 0).img_h ∧
    (regionGeom 0 90 (-90) (-90) 0).tl_tile_x = 0 ∧
    (regionGeom 0 90 (-90) (-90) 0).br_tile_x = 0 ∧
    (regionGeom 0 90 (-90) (-90) 0).tl_tile_y = 0 ∧
    (regionGeom 0 90 (-90) (-90) 0).br_tile_y = 1 := by
  rw [regionGeom_def, project_zero_lat, project_neg90_lat]
  dsimp only
  have e1 : ((0.5:ℝ) + 90 / 360) * 256 = 192 := by norm_num
  have e2 : ((0.5:ℝ) + -90 / 360) * 256 = 64 := by norm_num
  have e3 : (0.5:ℝ) * 256 = 128 := by norm_num
  rw [e1, e2, e3]
  have p1 : pyInt (192:ℝ) = 192 := pyInt_eval (by norm_num) (by norm_num) (by norm_num)
  have p2 : pyInt (64:ℝ) = 64 := pyInt_eval (by norm_num) (by norm_num) (by norm_num)
  have p3 : pyInt (128:ℝ) = 128 := pyInt_eval (by norm_num) (by norm_num) (by norm_num)
  have p4 := brPixelY_ge
  have t1 : pyInt ((0.5:ℝ) + 90 / 360) = 0 :=
    pyInt_eval (by norm_num) (by norm_num) (by norm_num)
  have t2 : pyInt ((0.5:ℝ) + -90 / 360) = 0 :=
    pyInt_eval (by norm_num) (by norm_num) (by norm_num)
  have t3 : pyInt (0.5:ℝ) = 0 := pyInt_eval (by norm_num) (by norm_num) (by norm_num)
  have t4 := brTileY_eq
  rw [p1, p2, p3, t1, t2, t3, t4]
  exact ⟨by decide, by omega, rfl, rfl, rfl, rfl⟩

theorem exA_hx0 : (0:ℝ) ≤ (project_with_scale 0 (-90) (2 ^ 0)).1 := by
  rw [project_zero_lat]
  norm_num

theorem exA_hy0 : (0:ℝ) ≤ (project_with_scale 0 (-90) (2 ^ 0)).2 := by
  rw [project_zero_lat]
  norm_num

theorem exA_hxo :
    (project_with_scale 0 (-90) (2 ^ 0)).1 ≤ (project_with_scale (-90) 90 (2 ^ 0)).1 := by
  rw [project_zero_lat, project_neg90_lat]
  norm_num

theorem exA_hyo :
    (project_with_scale 0 (-90) (2 ^ 0)).2 ≤ (project_with_scale (-90) 90 (2 ^ 0)).2 := by
  rw [project_zero_lat, project_neg90_lat]
  dsimp only
  nlinarith [logFrac_ge]

theorem exA_w : 0 < (regionGeom 0 (-90) (-90) 90 0).img_w := by
  obtain ⟨_, _, _, _, h, _⟩ := geomA
  omega

theorem exA_h : 0 < (regionGeom 0 (-90) (-90) 90 0).img_h := by
  obtain ⟨_, _, _, _, _, h, _⟩ := geomA
  exact h

/-- C10: for every tile coordinate in the computed covering range of a
region with positive computed dimensions and nonnegative, ordered projected
corners, the clipped destination rectangle lies within the canvas, the
source rectangle lies within the 256×256 tile, and the two rectangles have
equal (possibly empty) dimensions — so the per-tile slice assignment is
always well-defined. -/
theorem C10_tile_rects_well_formed (n w s e : ℝ) (zoom : ℕ)
    (hx0 : 0 ≤ (project_with_scale n w (2 ^ zoom)).1)
    (hy0 : 0 ≤ (project_with_scale n w (2 ^ zoom)).2)
    (hxo : (project_with_scale n w (2 ^ zoom)).1 ≤ (project_with_scale s e (2 ^ zoom)).1)
    (hyo : (project_with_scale n w (2 ^ zoom)).2 ≤ (project_with_scale s e (2 ^ zoom)).2)
    (hw : 0 < (regionGeom n w s e zoom).img_w)
    (hh : 0 < (regionGeom n w s e zoom).img_h) :
    ∀ p ∈ gridTiles (regionGeom n w s e zoom),
      (0 ≤ (tileRects (regionGeom n w s e zoom).tl_pixel_x (regionGeom n w s e zoom).tl_pixel_y
          (regionGeom n w s e zoom).img_w (regionGeom n w s e zoom).img_h p.1 p.2).img_x_l ∧
        (tileRects (regionGeom n w s e zoom).tl_pixel_x (regionGeom n w s e zoom).tl_pixel_y
          (regionGeom n w s e zoom).img_w (regionGeom n w s e zoom).img_h p.1 p.2).img_x_l ≤
          (tileRects (regionGeom n w s e zoom).tl_pixel_x (regionGeom n w s e zoom).tl_pixel_y
            (regionGeom n w s e zoom).img_w (regionGeom n w s e zoom).img_h p.1 p.2).img_x_r ∧
        (tileRects (regionGeom n w s e zoom).tl_pixel_x (regionGeom n w s e zoom).tl_pixel_y
          (regionGeom n w s e zoom).img_w (regionGeom n w s e zoom).img_h p.1 p.2).img_x_r ≤
          (regionGeom n w s e zoom).img_w) ∧
      (0 ≤ (tileRects (regionGeom n w s e zoom).tl_pixel_x (regionGeom n w s e zoom).tl_pixel_y
          (regionGeom n w s e zoom).img_w (regionGeom n w s e zoom).img_h p.1 p.2).img_y_l ∧
        (tileRects (regionGeom n w s e zoom).tl_pixel_x (regionGeom n w s e zoom).tl_pixel_y
          (regionGeom n w s e zoom).img_w (regionGeom n w s e zoom).img_h p.1 p.2).img_y_l ≤
          (tileRects (regionGeom n w s e zoom).tl_pixel_x (regionGeom n w s e zoom).tl_pixel_y
            (regionGeom n w s e zoom).img_w (regionGeom n w s e zoom).img_h p.1 p.2).img_y_r ∧
        (tileRects (regionGeom n w s e zoom).tl_pixel_x (regionGeom n w s e zoom).tl_pixel_y
          (regionGeom n w s e zoom).img_w (regionGeom n w s e zoom).img_h p.1 p.2).img_y_r ≤
          (regionGeom n w s e zoom).img_h) ∧
      (0 ≤ (tileRects (regionGeom n w s e zoom).tl_pixel_x (regionGeom n w s e zoom).tl_pixel_y
          (regionGeom n w s e zoom).img_w (regionGeom n w s e zoom).img_h p.1 p.2).cr_x_l ∧
        (tileRects (regionGeom n w s e zoom).tl_pixel_x (regionGeom n w s e zoom).tl_pixel_y
          (regionGeom n w s e zoom).img_w (regionGeom n w s e zoom).img_h p.1 p.2).cr_x_l ≤
          (tileRects (regionGeom n w s e zoom).tl_pixel_x (regionGeom n w s e zoom).tl_pixel_y
            (regionGeom n w s e zoom).img_w (regionGeom n w s e zoom).img_h p.1 p.2).cr_x_r ∧
        (tileRects (regionGeom n w s e zoom).tl_pixel_x (regionGeom n w s e zoom).tl_pixel_y
          (regionGeom n w s e zoom).img_w (regionGeom n w s e zoom).img_h p.1 p.2).cr_x_r ≤ 256) ∧
      (0 ≤ (tileRects (regionGeom n w s e zoom).tl_pixel_x (regionGeom n w s e zoom).tl_pixel_y
          (regionGeom n w s e zoom).img_w (regionGeom n w s e zoom).img_h p.1 p.2).cr_y_l ∧
        (tileRects (regionGeom n w s e zoom).tl_pixel_x (regionGeom n w s e zoom).tl_pixel_y
          (regionGeom n w s e zoom).img_w (regionGeom n w s e zoom).img_h p.1 p.2).cr_y_l ≤
          (tileRects (regionGeom n w s e zoom).tl_pixel_x (regionGeom n w s e zoom).tl_pixel_y
            (regionGeom n w s e zoom).img_w (regionGeom n w s e zoom).img_h p.1 p.2).cr_y_r ∧
        (tileRects (regionGeom n w s e zoom).tl_pixel_x (regionGeom n w s e zoom).tl_pixel_y
          (regionGeom n w s e zoom).img_w (regionGeom n w s e zoom).img_h p.1 p.2).cr_y_r ≤ 256) ∧
      ((tileRects (regionGeom n w s e zoom).tl_pixel_x (regionGeom n w s e zoom).tl_pixel_y
          (regionGeom n w s e zoom).img_w (regionGeom n w s e zoom).img_h p.1 p.2).img_x_r -
        (tileRects (regionGeom n w s e zoom).tl_pixel_x (regionGeom n w s e zoom).tl_pixel_y
          (regionGeom n w s e zoom).img_w (regionGeom n w s e zoom).img_h p.1 p.2).img_x_l =
        (tileRects (regionGeom n w s e zoom).tl_pixel_x (regionGeom n w s e zoom).tl_pixel_y
          (regionGeom n w s e zoom).img_w (regionGeom n w s e zoom).img_h p.1 p.2).cr_x_r -
        (tileRects (regionGeom n w s e zoom).tl_pixel_x (regionGeom n w s e zoom).tl_pixel_y
          (regionGeom n w s e zoom).img_w (regionGeom n w s e zoom).img_h p.1 p.2).cr_x_l) ∧
      ((tileRects (regionGeom n w s e zoom).tl_pixel_x (regionGeom n w s e zoom).tl_pixel_y
          (regionGeom n w s e zoom).img_w (regionGeom n w s e zoom).img_h p.1 p.2).img_y_r -
        (tileRects (regionGeom n w s e zoom).tl_pixel_x (regionGeom n w s e zoom).tl_pixel_y
          (regionGeom n w s e zoom).img_w (regionGeom n w s e zoom).img_h p.1 p.2).img_y_l =
        (tileRects (regionGeom n w s e zoom).tl_pixel_x (regionGeom n w s e zoom).tl_pixel_y
          (regionGeom n w s e zoom).img_w (regionGeom n w s e zoom).img_h p.1 p.2).cr_y_r -
        (tileRects (regionGeom n w s e zoom).tl_pixel_x (regionGeom n w s e zoom).tl_pixel_y
          (regionGeom n w s e zoom).img_w (regionGeom n w s e zoom).img_h p.1 p.2).cr_y_l) := by
  obtain ⟨f1, f2, f3, f4, f5, f6, f7, f8, f9, f10, f11, f12, f13, f14⟩ :=
    regionGeom_facts n w s e zoom hx0 hy0 hxo hyo
  intro p hp
  rw [mem_gridTiles] at hp
  obtain ⟨⟨hpx1, hpx2⟩, hpy1, hpy2⟩ := hp
  unfold tileRects
  dsimp only
  refine ⟨⟨?_, ?_, ?_⟩, ⟨?_, ?_, ?_⟩, ⟨?_, ?_, ?_⟩, ⟨?_, ?_, ?_⟩, ?_, ?_⟩ <;> omega

theorem C10_tile_rects_well_formed_witness :
    ((0:ℝ) ≤ (project_with_scale 0 (-90) (2 ^ 0)).1 ∧
      (0:ℝ) ≤ (project_with_scale 0 (-90) (2 ^ 0)).2 ∧
      (project_with_scale 0 (-90) (2 ^ 0)).1 ≤ (project_with_scale (-90) 90 (2 ^ 0)).1 ∧
      (project_with_scale 0 (-90) (2 ^ 0)).2 ≤ (project_with_scale (-90) 90 (2 ^ 0)).2 ∧
      0 < (regionGeom 0 (-90) (-90) 90 0).img_w ∧
      0 < (regionGeom 0 (-90) (-90) 90 0).img_h) ∧
    ((tileRects (regionGeom 0 (-90) (-90) 90 0).tl_pixel_x
        (regionGeom 0 (-90) (-90) 90 0).tl_pixel_y (regionGeom 0 (-90) (-90) 90 0).img_w
        (regionGeom 0 (-90) (-90) 90 0).img_h 0 0).img_x_r -
      (tileRects (regionGeom 0 (-90) (-90) 90 0).tl_pixel_x
        (regionGeom 0 (-90) (-90) 90 0).tl_pixel_y (regionGeom 0 (-90) (-90) 90 0).img_w
        (regionGeom 0 (-90) (-90) 90 0).img_h 0 0).img_x_l =
      (tileRects (regionGeom 0 (-90) (-90) 90 0).tl_pixel_x
        (regionGeom 0 (-90) (-90) 90 0).tl_pixel_y (regionGeom 0 (-90) (-90) 90 0).img_w
        (regionGeom 0 (-90) (-90) 90 0).img_h 0 0).cr_x_r -
      (tileRects (regionGeom 0 (-90) (-90) 90 0).tl_pixel_x
        (regionGeom 0 (-90) (-90) 90 0).tl_pixel_y (regionGeom 0 (-90) (-90) 90 0).img_w
        (regionGeom 0 (-90) (-90) 90 0).img_h 0 0).cr_x_l) := by
  refine ⟨⟨exA_hx0, exA_hy0, exA_hxo, exA_hyo, exA_w, exA_h⟩, ?_⟩
  have happ := C10_tile_rects_well_formed 0 (-90) (-90) 90 0
    exA_hx0 exA_hy0 exA_hxo exA_hyo exA_w exA_h ((0:ℤ), (0:ℤ))
    (mem_gridTiles.mpr (by
      obtain ⟨_, _, _, _, _, _, t1, t2, t3, t4⟩ := geomA
      exact ⟨⟨by omega, by omega⟩, by omega, by omega⟩))
  exact happ.2.2.2.2.1

/-- C1: for a canvas with positive computed dimensions (corners projected
nonnegative and in order), stitching writes each fetched tile into its
clipped placement rectangle (`top_left = (tx*256 - origin_x, ty*256 -
origin_y)`) with the matching source offset; the pixel sets written by
distinct grid positions are pairwise disjoint; every canvas pixel is owned
by a unique tile of the covering range, receives exactly that tile's pixel
when the tile succeeded, and remains zero-filled when it failed. -/
theorem C1_stitch_correct {α : Type} [Zero α] (n w s e : ℝ) (zoom : ℕ)
    (oracle : ℤ → ℤ → Option (ℤ → ℤ → α))
    (hx0 : 0 ≤ (project_with_scale n w (2 ^ zoom)).1)
    (hy0 : 0 ≤ (project_with_scale n w (2 ^ zoom)).2)
    (hxo : (project_with_scale n w (2 ^ zoom)).1 ≤ (project_with_scale s e (2 ^ zoom)).1)
    (hyo : (project_with_scale n w (2 ^ zoom)).2 ≤ (project_with_scale s e (2 ^ zoom)).2)
    (hw : 0 < (regionGeom n w s e zoom).img_w)
    (hh : 0 < (regionGeom n w s e zoom).img_h) :
    (∀ e₁ ∈ (gridTiles (regionGeom n w s e zoom)).map
        (fun p => (p.1, p.2, oracle p.1 p.2)),
      ∀ e₂ ∈ (gridTiles (regionGeom n w s e zoom)).map
        (fun p => (p.1, p.2, oracle p.1 p.2)),
      (e₁.1 ≠ e₂.1 ∨ e₁.2.1 ≠ e₂.2.1) → ∀ i : ℤ × ℤ,
        ¬(stitchCovers (regionGeom n w s e zoom).tl_pixel_x
            (regionGeom n w s e zoom).tl_pixel_y (regionGeom n w s e zoom).img_w
            (regionGeom n w s e zoom).img_h e₁ i = true ∧
          stitchCovers (regionGeom n w s e zoom).tl_pixel_x
            (regionGeom n w s e zoom).tl_pixel_y (regionGeom n w s e zoom).img_w
            (regionGeom n w s e zoom).img_h e₂ i = true)) ∧
    (∀ r c : ℤ, 0 ≤ r → r < (regionGeom n w s e zoom).img_h →
      0 ≤ c → c < (regionGeom n w s e zoom).img_w →
      ∃ tx ty : ℤ,
        (tx * 256 ≤ c + (regionGeom n w s e zoom).tl_pixel_x ∧
          c + (regionGeom n w s e zoom).tl_pixel_x < tx * 256 + 256) ∧
        (ty * 256 ≤ r + (regionGeom n w s e zoom).tl_pixel_y ∧
          r + (regionGeom n w s e zoom).tl_pixel_y < ty * 256 + 256) ∧
        (regionGeom n w s e zoom).tl_tile_x ≤ tx ∧ tx ≤ (regionGeom n w s e zoom).br_tile_x ∧
        (regionGeom n w s e zoom).tl_tile_y ≤ ty ∧ ty ≤ (regionGeom n w s e zoom).br_tile_y ∧
        (∀ tile, oracle tx ty = some tile →
          stitchCanvas (regionGeom n w s e zoom).tl_pixel_x
              (regionGeom n w s e zoom).tl_pixel_y (regionGeom n w s e zoom).img_w
              (regionGeom n w s e zoom).img_h
              ((gridTiles (regionGeom n w s e zoom)).map fun p => (p.1, p.2, oracle p.1 p.2))
              (r, c) =
            tile (r - (ty * 256 - (regionGeom n w s e zoom).tl_pixel_y))
              (c - (tx * 256 - (regionGeom n w s e zoom).tl_pixel_x))) ∧
        (oracle tx ty = none →
          stitchCanvas (regionGeom n w s e zoom).tl_pixel_x
              (regionGeom n w s e zoom).tl_pixel_y (regionGeom n w s e zoom).img_w
              (regionGeom n w s e zoom).img_h
              ((gridTiles (regionGeom n w s e zoom)).map fun p => (p.1, p.2, oracle p.1 p.2))
              (r, c) = 0)) := by
  obtain ⟨f1, f2, f3, f4, f5, f6, f7, f8, f9, f10, f11, f12, f13, f14⟩ :=
    regionGeom_facts n w s e zoom hx0 hy0 hxo hyo
  constructor
  · intro e₁ _ e₂ _ hne i
    exact stitch_writes_disjoint _ _ _ _ e₁ e₂ hne i
  · intro r c hr0 hrh hc0 hcw
    have hpx0 : 0 ≤ (regionGeom n w s e zoom).tl_pixel_x := by
      rw [regionGeom_def]
      dsimp only
      rw [pyInt_of_nonneg (by positivity)]
      exact Int.floor_nonneg.mpr (by positivity)
    have hpy0 : 0 ≤ (regionGeom n w s e zoom).tl_pixel_y := by
      rw [regionGeom_def]
      dsimp only
      rw [pyInt_of_nonneg (by positivity)]
      exact Int.floor_nonneg.mpr (by positivity)
    obtain ⟨tx, htx1, htx2⟩ := owner_exists (c + (regionGeom n w s e zoom).tl_pixel_x) (by omega)
    obtain ⟨ty, hty1, hty2⟩ := owner_exists (r + (regionGeom n w s e zoom).tl_pixel_y) (by omega)
    have hrange : (regionGeom n w s e zoom).tl_tile_x ≤ tx ∧
        tx ≤ (regionGeom n w s e zoom).br_tile_x ∧
        (regionGeom n w s e zoom).tl_tile_y ≤ ty ∧
        ty ≤ (regionGeom n w s e zoom).br_tile_y := by
      refine ⟨by omega, by omega, by omega, by omega⟩
    refine ⟨tx, ty, ⟨htx1, htx2⟩, ⟨hty1, hty2⟩, hrange.1, hrange.2.1, hrange.2.2.1,
      hrange.2.2.2, ?_, ?_⟩
    · intro tile htile
      exact stitch_px_some (regionGeom n w s e zoom) oracle hrange.1 hrange.2.1
        hrange.2.2.1 hrange.2.2.2 hr0 hrh hc0 hcw htx1 htx2 hty1 hty2 htile
    · intro htile
      exact stitch_px_none (regionGeom n w s e zoom) oracle htx1 htx2 hty1 hty2 htile

theorem C1_stitch_correct_witness :
    ((0:ℝ) ≤ (project_with_scale 0 (-90) (2 ^ 0)).1 ∧
      (0:ℝ) ≤ (project_with_scale 0 (-90) (2 ^ 0)).2 ∧
      (project_with_scale 0 (-90) (2 ^ 0)).1 ≤ (project_with_scale (-90) 90 (2 ^ 0)).1 ∧
      (project_with_scale 0 (-90) (2 ^ 0)).2 ≤ (project_with_scale (-90) 90 (2 ^ 0)).2 ∧
      0 < (regionGeom 0 (-90) (-90) 90 0).img_w ∧
      0 < (regionGeom 0 (-90) (-90) 90 0).img_h) ∧
    stitchCanvas (regionGeom 0 (-90) (-90) 90 0).tl_pixel_x
        (regionGeom 0 (-90) (-90) 90 0).tl_pixel_y (regionGeom 0 (-90) (-90) 90 0).img_w
        (regionGeom 0 (-90) (-90) 90 0).img_h
        ((gridTiles (regionGeom 0 (-90) (-90) 90 0)).map fun p =>
          (p.1, p.2, (fun _ _ : ℤ => (none : Option (ℤ → ℤ → ℤ))) p.1 p.2)) (0, 0) = 0 := by
  refine ⟨⟨exA_hx0, exA_hy0, exA_hxo, exA_hyo, exA_w, exA_h⟩, ?_⟩
  obtain ⟨tx, ty, _, _, _, _, _, _, _, hfail⟩ :=
    (C1_stitch_correct 0 (-90) (-90) 90 0 (fun _ _ => (none : Option (ℤ → ℤ → ℤ)))
      exA_hx0 exA_hy0 exA_hxo exA_hyo exA_w exA_h).2 0 0 le_rfl exA_h le_rfl exA_w
  exact hfail rfl

/-- C5: with positive computed dimensions, the region fetch returns `none`
exactly when zero tile downloads succeeded; if at least one tile succeeded it
returns the single assembled mosaic (stitched canvas with the computed
shape), and any canvas pixel owned by a failed tile stays zero-filled. -/
theorem C5_region_none_iff {α : Type} [Zero α] (n w s e : ℝ) (zoom : ℕ)
    (oracle : ℤ → ℤ → Option (ℤ → ℤ → α))
    (hw : 0 < (regionGeom n w s e zoom).img_w)
    (hh : 0 < (regionGeom n w s e zoom).img_h) :
    (fetch_satellite_region n w s e zoom oracle = none ↔
      ∀ p ∈ gridTiles (regionGeom n w s e zoom), oracle p.1 p.2 = none) ∧
    ((∃ p ∈ gridTiles (regionGeom n w s e zoom), (oracle p.1 p.2).isSome = true) →
      fetch_satellite_region n w s e zoom oracle =
        some ⟨(regionGeom n w s e zoom).img_h, (regionGeom n w s e zoom).img_w,
          stitchCanvas (regionGeom n w s e zoom).tl_pixel_x
            (regionGeom n w s e zoom).tl_pixel_y (regionGeom n w s e zoom).img_w
            (regionGeom n w s e zoom).img_h
            ((gridTiles (regionGeom n w s e zoom)).map fun p =>
              (p.1, p.2, oracle p.1 p.2))⟩) ∧
    (∀ r c tx ty : ℤ,
      tx * 256 ≤ c + (regionGeom n w s e zoom).tl_pixel_x →
      c + (regionGeom n w s e zoom).tl_pixel_x < tx * 256 + 256 →
      ty * 256 ≤ r + (regionGeom n w s e zoom).tl_pixel_y →
      r + (regionGeom n w s e zoom).tl_pixel_y < ty * 256 + 256 →
      oracle tx ty = none →
      stitchCanvas (regionGeom n w s e zoom).tl_pixel_x
          (regionGeom n w s e zoom).tl_pixel_y (regionGeom n w s e zoom).img_w
          (regionGeom n w s e zoom).img_h
          ((gridTiles (regionGeom n w s e zoom)).map fun p => (p.1, p.2, oracle p.1 p.2))
          (r, c) = 0) := by
  refine ⟨?_, ?_, ?_⟩
  · unfold fetch_satellite_region
    dsimp only
    rw [if_neg (by push_neg; exact ⟨by omega, by omega⟩)]
    constructor
    · intro hnone
      by_cases hpos : 0 < ((((gridTiles (regionGeom n w s e zoom)).map fun p =>
          (p.1, p.2, oracle p.1 p.2)).filter fun e₂ => e₂.2.2.isSome).length)
      · rw [if_pos hpos] at hnone
        cases hnone
      · intro p hp
        have hlen0 : ((((gridTiles (regionGeom n w s e zoom)).map fun p =>
            (p.1, p.2, oracle p.1 p.2)).filter fun e₂ => e₂.2.2.isSome).length) = 0 := by
          omega
        have hnil := List.length_eq_zero.mp hlen0
        have hmem : (p.1, p.2, oracle p.1 p.2) ∈ (gridTiles (regionGeom n w s e zoom)).map
            fun p => (p.1, p.2, oracle p.1 p.2) := List.mem_map.mpr ⟨p, hp, rfl⟩
        cases hor : oracle p.1 p.2 with
        | none => rfl
        | some t =>
            have hinf : (p.1, p.2, oracle p.1 p.2) ∈
                ((gridTiles (regionGeom n w s e zoom)).map fun p =>
                  (p.1, p.2, oracle p.1 p.2)).filter fun e₂ => e₂.2.2.isSome :=
              List.mem_filter.mpr ⟨hmem, by rw [hor]; rfl⟩
            rw [hnil] at hinf
            cases hinf
    · intro hall
      have hnopos : ¬ 0 < ((((gridTiles (regionGeom n w s e zoom)).map fun p =>
          (p.1, p.2, oracle p.1 p.2)).filter fun e₂ => e₂.2.2.isSome).length) := by
        intro hpos
        rcases List.exists_mem_of_length_pos hpos with ⟨a, ha⟩
        obtain ⟨haL, hsome⟩ := List.mem_filter.mp ha
        rcases List.mem_map.mp haL with ⟨p, hp, rfl⟩
        rw [hall p hp] at hsome
        cases hsome
      rw [if_neg hnopos]
  · rintro ⟨p, hp, hsome⟩
    unfold fetch_satellite_region
    dsimp only
    rw [if_neg (by push_neg; exact ⟨by omega, by omega⟩)]
    rw [if_pos (List.length_pos_of_mem
      (List.mem_filter.mpr ⟨List.mem_map.mpr ⟨p, hp, rfl⟩, hsome⟩))]
  · intro r c tx ty h1 h2 h3 h4 h5
    exact stitch_px_none (regionGeom n w s e zoom) oracle h1 h2 h3 h4 h5

theorem C5_region_none_iff_witness :
    (0 < (regionGeom 0 (-90) (-90) 90 0).img_w ∧
      0 < (regionGeom 0 (-90) (-90) 90 0).img_h) ∧
    fetch_satellite_region 0 (-90) (-90) 90 0
      (fun _ _ : ℤ => (none : Option (ℤ → ℤ → ℤ))) = none := by
  refine ⟨⟨exA_w, exA_h⟩, ?_⟩
  exact (C5_region_none_iff 0 (-90) (-90) 90 0
    (fun _ _ : ℤ => (none : Option (ℤ → ℤ → ℤ))) exA_w exA_h).1.mpr (fun p _ => rfl)

/-- The projected `y` is antitone in latitude on `[-90°, 90°]` (and does not
depend on longitude): larger latitude projects higher on the map (smaller
`y`). -/
theorem projectY_antitone (lat1 lat2 lon1 lon2 : ℝ) (scale : ℕ)
    (h1 : -90 ≤ lat1) (h2 : lat2 ≤ 90) (hle : lat1 ≤ lat2) :
    (project_with_scale lat2 lon2 scale).2 ≤ (project_with_scale lat1 lon1 scale).2 := by
  unfold project_with_scale
  dsimp only
  have hπ := Real.pi_pos
  have hθ1l : -(Real.pi / 2) ≤ lat1 * Real.pi / 180 := by
    have := mul_le_mul_of_nonneg_right (show (-90:ℝ) ≤ lat1 from h1) (le_of_lt hπ)
    linarith
  have hθ2u : lat2 * Real.pi / 180 ≤ Real.pi / 2 := by
    have := mul_le_mul_of_nonneg_right (show lat2 ≤ (90:ℝ) from h2) (le_of_lt hπ)
    linarith
  have hθ1u : lat1 * Real.pi / 180 ≤ Real.pi / 2 := by
    have := mul_le_mul_of_nonneg_right (show lat1 ≤ (90:ℝ) from le_trans hle h2)
      (le_of_lt hπ)
    linarith
  have hθ2l : -(Real.pi / 2) ≤ lat2 * Real.pi / 180 := by
    have := mul_le_mul_of_nonneg_right (show (-90:ℝ) ≤ lat2 from le_trans h1 hle)
      (le_of_lt hπ)
    linarith
  have hθle : lat1 * Real.pi / 180 ≤ lat2 * Real.pi / 180 := by
    have := mul_le_mul_of_nonneg_right hle (le_of_lt hπ)
    linarith
  have hsin : Real.sin (lat1 * Real.pi / 180) ≤ Real.sin (lat2 * Real.pi / 180) := by
    rcases eq_or_lt_of_le hθle with heq | hlt
    · rw [heq]
    · exact le_of_lt (Real.strictMonoOn_sin ⟨hθ1l, hθ1u⟩ ⟨hθ2l, hθ2u⟩ hlt)
  have hs : min (max (Real.sin (lat1 * Real.pi / 180)) (-0.9999)) 0.9999 ≤
      min (max (Real.sin (lat2 * Real.pi / 180)) (-0.9999)) 0.9999 :=
    min_le_min (max_le_max hsin le_rfl) le_rfl
  have hs1l : (-0.9999:ℝ) ≤ min (max (Real.sin (lat1 * Real.pi / 180)) (-0.9999)) 0.9999 :=
    le_min (le_max_right _ _) (by norm_num)
  have hs1u : min (max (Real.sin (lat1 * Real.pi / 180)) (-0.9999)) 0.9999 ≤ 0.9999 :=
    min_le_right _ _
  have hs2l : (-0.9999:ℝ) ≤ min (max (Real.sin (lat2 * Real.pi / 180)) (-0.9999)) 0.9999 :=
    le_min (le_max_right _ _) (by norm_num)
  have hs2u : min (max (Real.sin (lat2 * Real.pi / 180)) (-0.9999)) 0.9999 ≤ 0.9999 :=
    min_le_right _ _
  set s1 := min (max (Real.sin (lat1 * Real.pi / 180)) (-0.9999)) 0.9999
  set s2 := min (max (Real.sin (lat2 * Real.pi / 180)) (-0.9999)) 0.9999
  have hd1 : (0:ℝ) < 1 - s1 := by linarith
  have hd2 : (0:ℝ) < 1 - s2 := by linarith
  have hn1 : (0:ℝ) < 1 + s1 := by linarith
  have hfrac : (1 + s1) / (1 - s1) ≤ (1 + s2) / (1 - s2) := by
    rw [div_le_div_iff hd1 hd2]
    nlinarith
  have hlog : Real.log ((1 + s1) / (1 - s1)) ≤ Real.log ((1 + s2) / (1 - s2)) :=
    Real.log_le_log (by positivity) hfrac
  have h4π : (0:ℝ) < 4 * Real.pi := by positivity
  apply mul_le_mul_of_nonneg_left ?_ (by positivity : (0:ℝ) ≤ (scale : ℝ))
  have := (div_le_div_right h4π).mpr hlog
  linarith

/-- C4, amended: a north/south latitude swap (within `[-90°, 90°]`) does
produce computed pixel height ≤ 0 and the fetch fails immediately with no
data.  (A west/east longitude swap is not detected — see the
counterexample: the width is an absolute value.) -/
theorem C4_latswap_fail_fast {α : Type} [Zero α] (n w s e : ℝ) (zoom : ℕ)
    (oracle : ℤ → ℤ → Option (ℤ → ℤ → α))
    (hn : -90 ≤ n) (hs90 : s ≤ 90) (hswap : n < s) :
    (regionGeom n w s e zoom).img_h ≤ 0 ∧
      fetch_satellite_region n w s e zoom oracle = none := by
  have hy := projectY_antitone n s w e (2 ^ zoom) hn hs90 (le_of_lt hswap)
  have himg : (regionGeom n w s e zoom).img_h ≤ 0 := by
    rw [regionGeom_def]
    dsimp only
    have := pyInt_mono (mul_le_mul_of_nonneg_right hy (by norm_num : (0:ℝ) ≤ 256))
    omega
  refine ⟨himg, ?_⟩
  unfold fetch_satellite_region
  dsimp only
  rw [if_pos (Or.inr himg)]

theorem C4_latswap_fail_fast_witness :
    ((-90:ℝ) ≤ -90 ∧ (0:ℝ) ≤ 90 ∧ (-90:ℝ) < 0) ∧
      fetch_satellite_region (-90) (-90) 0 90 0
        (fun _ _ : ℤ => (none : Option (ℤ → ℤ → ℤ))) = none :=
  ⟨⟨le_refl _, by norm_num, by norm_num⟩,
    (C4_latswap_fail_fast (-90) (-90) 0 90 0
      (fun _ _ : ℤ => (none : Option (ℤ → ℤ → ℤ)))
      (le_refl _) (by norm_num) (by norm_num)).2⟩

/-- C4 as stated is false on the code: supplying the west/east longitudes in
the wrong order (west 90 > east -90, latitudes in correct order) still
produces positive computed width — `img_w` takes an absolute value — and
positive height, and the fetch proceeds and returns a mosaic instead of
failing. -/
theorem C4_counterexample :
    ((-90:ℝ) < 90) ∧
    0 < (regionGeom 0 90 (-90) (-90) 0).img_w ∧
    0 < (regionGeom 0 90 (-90) (-90) 0).img_h ∧
    fetch_satellite_region 0 90 (-90) (-90) 0
      (fun _ _ : ℤ => some fun _ _ : ℤ => (0:ℤ)) ≠ none := by
  obtain ⟨hw, hh, t1, t2, t3, t4⟩ := geomB
  refine ⟨by norm_num, by omega, hh, ?_⟩
  unfold fetch_satellite_region
  dsimp only
  rw [if_neg (by push_neg; exact ⟨by omega, by omega⟩)]
  have hmem : ((0:ℤ), (0:ℤ), some fun _ _ : ℤ => (0:ℤ)) ∈
      ((gridTiles (regionGeom 0 90 (-90) (-90) 0)).map fun p =>
        (p.1, p.2, (fun _ _ : ℤ => some fun _ _ : ℤ => (0:ℤ)) p.1 p.2)) :=
    List.mem_map.mpr ⟨(0, 0), mem_gridTiles.mpr ⟨⟨by omega, by omega⟩, by omega, by omega⟩, rfl⟩
  rw [if_pos (List.length_pos_of_mem (List.mem_filter.mpr ⟨hmem, rfl⟩))]
  simp

/-! ### HeatFieldSynthesizer (spec §4.5) — no implementation exists under the
analysed sources; the synthesizer is specified only in the design document,
so the definitions below are modelled from the spec's words. -/

/-- Pixel grid of a heat field. -/
abbrev HeatIdx (hgt wd : ℕ) := Fin hgt × Fin wd

/-- Modelled from the spec: a Gaussian blur is a kernel-weighted sum of the
mask over the grid; the Gaussian weights are nonnegative, which is all the
boundedness argument uses, so the kernel is kept abstract. -/
noncomputable def blurField {hgt wd : ℕ} (kernel : HeatIdx hgt wd → HeatIdx hgt wd → ℝ)
    (m : HeatIdx hgt wd → ℝ) (p : HeatIdx hgt wd) : ℝ :=
  ∑ q, kernel p q * m q

/-- Modelled from the spec: `max(|H|)`, the normalizer of the weighted
method. -/
noncomputable def maxAbsField {hgt wd : ℕ} [NeZero hgt] [NeZero wd]
    (f : HeatIdx hgt wd → ℝ) : ℝ :=
  Finset.univ.sup' Finset.univ_nonempty fun p => |f p|

/-- Modelled from the spec (§4.5, missing from the sources): the `weighted`
method — `H = w_build·B_blur − w_veg·V_blur`, normalized by
`max(|H|) + ε`. -/
noncomputable def weightedField {hgt wd : ℕ} [NeZero hgt] [NeZero wd]
    (kb kv : HeatIdx hgt wd → HeatIdx hgt wd → ℝ) (wb wv : ℝ)
    (B V : HeatIdx hgt wd → ℝ) (ε : ℝ) (p : HeatIdx hgt wd) : ℝ :=
  (wb * blurField kb B p - wv * blurField kv V p) /
    (maxAbsField (fun q => wb * blurField kb B q - wv * blurField kv V q) + ε)

/-- Modelled from the spec (§4.5, missing from the sources): the `ndui`
method — `H = (w_build·B_blur − w_veg·V_blur) /
(w_build·B_blur + w_veg·V_blur + ε)`. -/
noncomputable def nduiField {hgt wd : ℕ}
    (kb kv : HeatIdx hgt wd → HeatIdx hgt wd → ℝ) (wb wv : ℝ)
    (B V : HeatIdx hgt wd → ℝ) (ε : ℝ) (p : HeatIdx hgt wd) : ℝ :=
  (wb * blurField kb B p - wv * blurField kv V p) /
    (wb * blurField kb B p + wv * blurField kv V p + ε)

/-- Modelled from the spec: Euclidean distance transform — distance from a
pixel to the nearest pixel of the mask (zero inside the mask, by the
distance to itself); the spec leaves the all-empty mask case undefined, here
it is `0`, which does not affect boundedness. -/
noncomputable def distToMask {hgt wd : ℕ} (M : HeatIdx hgt wd → ℝ)
    (p : HeatIdx hgt wd) : ℝ :=
  letI := Classical.decPred fun q : HeatIdx hgt wd => M q = 1
  let S := Finset.univ.filter fun q : HeatIdx hgt wd => M q = 1
  if hS : S.Nonempty then
    S.inf' hS fun q =>
      Real.sqrt (((p.1 : ℝ) - (q.1 : ℝ)) ^ 2 + ((p.2 : ℝ) - (q.2 : ℝ)) ^ 2)
  else 0

/-- Modelled from the spec (§4.5, missing from the sources): the
`signed_distance` method — `S = (dist_to_vegetation − dist_to_building)/γ`
with `γ = (σ_build + σ_veg)/2`, squashed by `tanh`. -/
noncomputable def signedDistanceField {hgt wd : ℕ} (B V : HeatIdx hgt wd → ℝ)
    (sb sv : ℝ) (p : HeatIdx hgt wd) : ℝ :=
  Real.tanh ((distToMask V p - distToMask B p) / ((sb + sv) / 2))

theorem abs_tanh_lt_one (x : ℝ) : |Real.tanh x| < 1 := by
  rw [Real.tanh_eq_sinh_div_cosh, abs_div, abs_of_pos (Real.cosh_pos x),
    div_lt_one (Real.cosh_pos x), abs_lt]
  constructor
  · nlinarith [Real.exp_pos x, Real.cosh_add_sinh x]
  · nlinarith [Real.exp_pos (-x), Real.cosh_sub_sinh x]

/-- C7: for all three synthesis methods (weighted, ndui, signed_distance)
and every pair of binary `{0,1}` masks — including all-zero and all-one
masks — with nonnegative blur kernels and weights and a positive ε, every
value of the synthesized heat field lies within `[-1, 1]`. -/
theorem C7_heat_field_bounded {hgt wd : ℕ} [NeZero hgt] [NeZero wd]
    (B V : HeatIdx hgt wd → ℝ) (kb kv : HeatIdx hgt wd → HeatIdx hgt wd → ℝ)
    (wb wv sb sv ε : ℝ)
    (hB : ∀ p, B p = 0 ∨ B p = 1) (hV : ∀ p, V p = 0 ∨ V p = 1)
    (hkb : ∀ p q, 0 ≤ kb p q) (hkv : ∀ p q, 0 ≤ kv p q)
    (hwb : 0 ≤ wb) (hwv : 0 ≤ wv) (hε : 0 < ε) :
    (∀ p, |weightedField kb kv wb wv B V ε p| ≤ 1) ∧
    (∀ p, |nduiField kb kv wb wv B V ε p| ≤ 1) ∧
    (∀ p, |signedDistanceField B V sb sv p| ≤ 1) := by
  have hBblur : ∀ p, 0 ≤ blurField kb B p := by
    intro p
    apply Finset.sum_nonneg
    intro q _
    rcases hB q with h | h <;> rw [h] <;> nlinarith [hkb p q]
  have hVblur : ∀ p, 0 ≤ blurField kv V p := by
    intro p
    apply Finset.sum_nonneg
    intro q _
    rcases hV q with h | h <;> rw [h] <;> nlinarith [hkv p q]
  refine ⟨?_, ?_, ?_⟩
  · intro p
    unfold weightedField
    have hle : |wb * blurField kb B p - wv * blurField kv V p| ≤
        maxAbsField fun q => wb * blurField kb B q - wv * blurField kv V q :=
      Finset.le_sup' (fun q => |wb * blurField kb B q - wv * blurField kv V q|)
        (Finset.mem_univ p)
    have hmax0 : 0 ≤ maxAbsField fun q => wb * blurField kb B q - wv * blurField kv V q :=
      le_trans (abs_nonneg _) hle
    rw [abs_div, abs_of_pos (show (0:ℝ) <
      maxAbsField (fun q => wb * blurField kb B q - wv * blurField kv V q) + ε by linarith)]
    rw [div_le_one (by linarith)]
    linarith
  · intro p
    unfold nduiField
    have ha : 0 ≤ wb * blurField kb B p := mul_nonneg hwb (hBblur p)
    have hb : 0 ≤ wv * blurField kv V p := mul_nonneg hwv (hVblur p)
    rw [abs_div, abs_of_pos (show (0:ℝ) <
      wb * blurField kb B p + wv * blurField kv V p + ε by linarith)]
    rw [div_le_one (by linarith)]
    rw [abs_le]
    constructor <;> linarith
  · intro p
    exact le_of_lt (abs_tanh_lt_one _)

theorem C7_heat_field_bounded_witness :
    ((0:ℝ) < 1 ∧
      (∀ p : HeatIdx 1 1, (fun _ : HeatIdx 1 1 => (1:ℝ)) p = 0 ∨
        (fun _ : HeatIdx 1 1 => (1:ℝ)) p = 1)) ∧
    |weightedField (fun _ _ => 1) (fun _ _ => 1) 1 1
        (fun _ : HeatIdx 1 1 => (1:ℝ)) (fun _ : HeatIdx 1 1 => (1:ℝ)) 1
        ((0 : Fin 1), (0 : Fin 1))| ≤ 1 := by
  refine ⟨⟨one_pos, fun p => Or.inr rfl⟩, ?_⟩
  exact (C7_heat_field_bounded (fun _ : HeatIdx 1 1 => (1:ℝ)) (fun _ : HeatIdx 1 1 => (1:ℝ))
    (fun _ _ => 1) (fun _ _ => 1) 1 1 1 1 1
    (fun p => Or.inr rfl) (fun p => Or.inr rfl) (fun p q => zero_le_one)
    (fun p q => zero_le_one) zero_le_one zero_le_one one_pos).1
    ((0 : Fin 1), (0 : Fin 1))
